import Mathlib

/-!
Formal model of the userchroot utility (src/userchroot.c and
src/fundamental_devices.c), a setuid-root chroot helper.

Shallow embedding conventions:
* Paths, usernames and file contents are `List Char` (byte strings; a NUL
  byte is the character `charNul`).
* `lstat` is modelled by a function `Fs : List Char → Option Stat`; `none`
  means the stat call fails.  Mode bits are `Nat` with the usual octal masks.
* Every fatal branch of the C code calls `exit(ERR_EXIT_CODE)` after one
  diagnostic line; the model represents such an exit by `MainOutcome.errExit`
  carrying a tag for the diagnostic, or `MainOutcome.usageExit` for the
  `USAGE()` macro (which also exits with `ERR_EXIT_CODE`).
* The opened configuration `FILE*` is a `CFile`: the unread bytes plus the
  end-of-file indicator, with `fgets` modelled byte-exactly (stop after a
  newline, stop after `size - 1` characters, set the EOF indicator when the
  stream runs out mid-read).
* Process credentials follow the classical POSIX saved-id semantics that the
  program assumes (see the design notes of the specification).
-/

namespace Userchroot

/-- The NUL byte; significant for the C string routines `strchr`/`strncmp`. -/
def charNul : Char := Char.ofNat 0

/-- The fields of `struct stat` that the program consults. -/
structure Stat where
  st_dev : Nat
  st_ino : Nat
  st_mode : Nat
  st_uid : Nat
deriving DecidableEq, Repr

/-- File-type mask of `st_mode`. -/
def S_IFMT : Nat := 0o170000

/-- Directory file type. -/
def S_IFDIR : Nat := 0o040000

/-- Regular-file file type. -/
def S_IFREG : Nat := 0o100000

/-- The `S_ISDIR` test on a stat mode. -/
def S_ISDIR (m : Nat) : Bool := m &&& S_IFMT == S_IFDIR

/-- The `S_ISREG` test on a stat mode. -/
def S_ISREG (m : Nat) : Bool := m &&& S_IFMT == S_IFREG

/-- The filesystem as seen through link-level `lstat`: `none` = stat failure. -/
abbrev Fs := List Char → Option Stat

/-- Diagnostic tags, one per `fprintf(stderr, ...)` line the model tracks. -/
inductive Msg where
  | corruptedEnv
  | needRootPrivileges
  | setgidRoot
  | runAsRoot
  | openConfigFailed
  | configCheckFailed
  | configNotRegular
  | configMoved
  | nonWhitelisted
  | nonRestrictivePerms
  | ownerMismatch
  | getpwuidFailed
  | basePathFailed
  | closeFailed
  | permissionDenied
  | dotLeaf
  | notOwner
  | chdirFailed
  | chrootFailed
  | dropFailed
  | chdirRootFailed
deriving DecidableEq, Repr

/-- Character whitelist of `whitelist_char_check` (userchroot.c lines 60-83):
A-Z, a-z, 0-9, and the set [.] [_] [+] [,] [-]; a slash only when
`allow_slashes` is set. -/
def whitelisted_char (allow_slashes : Bool) (c : Char) : Bool :=
  (0x41 ≤ c.toNat && c.toNat ≤ 0x5A) ||
  (0x61 ≤ c.toNat && c.toNat ≤ 0x7A) ||
  (0x30 ≤ c.toNat && c.toNat ≤ 0x39) ||
  c.toNat == 0x2E || c.toNat == 0x5F || c.toNat == 0x2B ||
  c.toNat == 0x2C || c.toNat == 0x2D ||
  (allow_slashes && c == '/')

/-- `whitelist_char_check(str, allow_slashes)`: `true` when the function
returns normally, `false` when it aborts the process. -/
def whitelist_char_check (str : List Char) (allow_slashes : Bool) : Bool :=
  str.all (whitelisted_char allow_slashes)

/-- Index of the last [/] in the string: the `strrchr(tosplit, (sol))` call of
`check_base_path`.  `none` when the string has no slash. -/
def lastSlashIdx : List Char → Option Nat
  | [] => none
  | c :: rest =>
    match lastSlashIdx rest with
    | some i => some (i + 1)
    | none => if c = '/' then some 0 else none

/-- One directory test of the `check_base_path` loop body (lines 113-129):
`lstat` succeeds, the entry is a directory, owned by uid 0, and neither the
group-write nor the other-write bit is set. -/
def dirOk (fs : Fs) (p : List Char) : Bool :=
  match fs p with
  | none => false
  | some st => S_ISDIR st.st_mode && st.st_uid == 0 && st.st_mode &&& 0o022 == 0

/-- Fuelled form of the `check_base_path` loop (lines 98-130).  Each
iteration looks up the last slash of `tosplit`; no slash aborts
("Paths should be always absolute"), a slash at position 0 makes this the
final iteration and stats `tosplit` whole, otherwise `tosplit` is truncated
at that slash and the truncation is statted.  The fuel only bounds the
iteration count; `check_base_path` supplies enough for any input. -/
def check_base_pathF (fs : Fs) : Nat → List Char → Bool
  | 0, _ => false
  | fuel + 1, t =>
    match lastSlashIdx t with
    | none => false
    | some 0 => dirOk fs t
    | some (i + 1) => dirOk fs (t.take (i + 1)) && check_base_pathF fs fuel (t.take (i + 1))

/-- `check_base_path(path)`: `true` when the function returns normally,
`false` when some check fails and the process exits. -/
def check_base_path (fs : Fs) (path : List Char) : Bool :=
  check_base_pathF fs (path.length + 1) path

/-- Fuelled list of the paths the `check_base_path` loop passes to `lstat`,
in order; `none` when the loop aborts for lack of a slash. -/
def basePathChainF : Nat → List Char → Option (List (List Char))
  | 0, _ => none
  | fuel + 1, t =>
    match lastSlashIdx t with
    | none => none
    | some 0 => some [t]
    | some (i + 1) =>
      match basePathChainF fuel (t.take (i + 1)) with
      | none => none
      | some l => some (t.take (i + 1) :: l)

/-- The sequence of paths `check_base_path` stats, in order. -/
def basePathChain (path : List Char) : Option (List (List Char)) :=
  basePathChainF (path.length + 1) path

/-- `check_config_file` (lines 134-169) given the lstat view `fs`, the
compiled-in config path `cfg` and the result of `fstat` on the opened
descriptor.  `none` models `exit(ERR_EXIT_CODE)`.  `some msgs` models the
function returning to the caller, with `msgs` the diagnostics that were
printed WITHOUT exiting: the `S_ISREG` branch (lines 146-148) and the
device/inode mismatch branch (lines 165-168) print but fall through. -/
def check_config_file (fs : Fs) (cfg : List Char) (fstatRes : Option Stat) :
    Option (List Msg) :=
  if check_base_path fs cfg = false then none
  else
    match fs cfg with
    | none => none
    | some st =>
      let warn1 : List Msg := if S_ISREG st.st_mode then [] else [Msg.configNotRegular]
      if st.st_uid ≠ 0 then none
      else if st.st_mode &&& 0o022 ≠ 0 then none
      else
        match fstatRes with
        | none => none
        | some fst =>
          if fst.st_dev ≠ st.st_dev ∨ fst.st_ino ≠ st.st_ino then
            some (warn1 ++ [Msg.configMoved])
          else some warn1

/-- Process credentials: real, effective and saved user and group ids. -/
structure Creds where
  ruid : Nat
  euid : Nat
  suid : Nat
  rgid : Nat
  egid : Nat
  sgid : Nat
deriving DecidableEq, Repr

/-- Classical POSIX `setuid`: with effective uid 0 all three uids are set;
otherwise only permitted towards the real or saved uid, setting the
effective uid.  Returns (call succeeded, new credentials). -/
def sys_setuid (c : Creds) (u : Nat) : Bool × Creds :=
  if c.euid = 0 then
    (true, { c with ruid := u, euid := u, suid := u })
  else if u = c.ruid ∨ u = c.suid then
    (true, { c with euid := u })
  else (false, c)

/-- Classical POSIX `seteuid`. -/
def sys_seteuid (c : Creds) (u : Nat) : Bool × Creds :=
  if c.euid = 0 ∨ u = c.ruid ∨ u = c.suid then
    (true, { c with euid := u })
  else (false, c)

/-- Classical POSIX `setgid` (privilege decided by the effective uid). -/
def sys_setgid (c : Creds) (g : Nat) : Bool × Creds :=
  if c.euid = 0 then
    (true, { c with rgid := g, egid := g, sgid := g })
  else if g = c.rgid ∨ g = c.sgid then
    (true, { c with egid := g })
  else (false, c)

/-- Classical POSIX `setegid`. -/
def sys_setegid (c : Creds) (g : Nat) : Bool × Creds :=
  if c.euid = 0 ∨ g = c.rgid ∨ g = c.sgid then
    (true, { c with egid := g })
  else (false, c)

/-- The privilege-drop block of `main` (lines 441-458): `setuid(target_user)`
with its return-code check, then the four regain attempts `setuid(0)`,
`seteuid(0)`, `setgid(0)`, `setegid(0)` (the C code short-circuits: a
successful attempt exits at once), then the re-read of the four ids with a
fatal exit if any is zero.  `none` models `exit(ERR_EXIT_CODE)`. -/
def dropPrivileges (c : Creds) (target_user : Nat) : Option Creds :=
  match sys_setuid c target_user with
  | (false, _) => none
  | (true, c1) =>
    match sys_setuid c1 0 with
    | (true, _) => none
    | (false, c2) =>
      match sys_seteuid c2 0 with
      | (true, _) => none
      | (false, c3) =>
        match sys_setgid c3 0 with
        | (true, _) => none
        | (false, c4) =>
          match sys_setegid c4 0 with
          | (true, _) => none
          | (false, c5) =>
            if c5.ruid = 0 ∨ c5.euid = 0 ∨ c5.rgid = 0 ∨ c5.egid = 0 then none
            else some c5

/-- Why a single `fgets`-style read stopped. -/
inductive StopReason where
  | newline
  | limit
  | eof
deriving DecidableEq, Repr

/-- Read at most `n` characters from the stream, stopping after the first
newline; returns (characters read, remaining stream, stop reason). -/
def readLine : Nat → List Char → List Char × List Char × StopReason
  | 0, s => ([], s, StopReason.limit)
  | _ + 1, [] => ([], [], StopReason.eof)
  | n + 1, c :: rest =>
    if c = '\n' then ([c], rest, StopReason.newline)
    else
      let r := readLine n rest
      (c :: r.1, r.2.1, r.2.2)

/-- The opened configuration stream: unread bytes plus the EOF indicator. -/
structure CFile where
  bytes : List Char
  eof : Bool
deriving DecidableEq, Repr

/-- `fgets(buf, size, f)`: `none` models a NULL return (nothing could be
read); otherwise the characters stored into the buffer.  The EOF indicator
is set exactly when the read attempts to go past the end of the stream. -/
def fgets (size : Nat) (f : CFile) : Option (List Char) × CFile :=
  if f.eof then (none, f)
  else
    match f.bytes with
    | [] => (none, { f with eof := true })
    | _ :: _ =>
      let r := readLine (size - 1) f.bytes
      (some r.1, { bytes := r.2.1, eof := r.2.2 == StopReason.eof })

/-- `strchr(buf, c) != NULL` on a buffer whose stored bytes are `buf`
followed by a NUL terminator: the scan stops at the first NUL byte, so a
target character standing after an embedded NUL is not found. -/
def strchrFound (buf : List Char) (c : Char) : Bool :=
  match buf with
  | [] => false
  | b :: rest =>
    if b = charNul then false
    else if b = c then true
    else strchrFound rest c

/-- `strncmp(a, b, n) == 0` where `a` and `b` are the raw byte contents of
the two buffers, each including its NUL terminator.  The comparison stops at
the first differing byte; the C comparison also stops at a joint NUL, which
for the program's calls can only be the final terminator (the assembled
config line contains no interior NUL), so comparing through is faithful. -/
def strncmpIsZero : Nat → List Char → List Char → Bool
  | 0, _, _ => true
  | n + 1, a :: as, b :: bs =>
    if a ≠ b then false
    else if a = charNul then true
    else strncmpIsZero n as bs
  | _ + 1, _, _ => false

/-- Fuelled inner discard loop of the config scan (lines 369-376): keep
reading until a chunk in which `strchr` finds a newline, or EOF. -/
def skipLongF (linelen : Nat) : Nat → CFile → CFile
  | 0, f => f
  | fuel + 1, f =>
    if f.eof then f
    else
      match fgets linelen f with
      | (none, f1) => f1
      | (some chunk, f1) =>
        if strchrFound chunk '\n' then f1
        else skipLongF linelen fuel f1

/-- The inner discard loop, with enough fuel for any stream. -/
def skipLong (linelen : Nat) (f : CFile) : CFile :=
  skipLongF linelen (f.bytes.length + 1) f

/-- Fuelled outer scan loop of `main` (lines 365-381): while not at EOF and
`fgets` succeeds, a chunk whose newline is visible to `strchr` is compared
with the assembled line buffer (`line` followed by its NUL terminator,
`linelen` bytes in total); a chunk without a visible newline sets `ignore`
and drains the oversized line.  Returns the final value of `found`. -/
def scanLoopF (linelen : Nat) (line : List Char) : Nat → CFile → Bool
  | 0, _ => false
  | fuel + 1, f =>
    if f.eof then false
    else
      match fgets linelen f with
      | (none, _) => false
      | (some chunk, f1) =>
        if strchrFound chunk '\n' then
          if strncmpIsZero linelen (line ++ [charNul]) (chunk ++ [charNul]) then true
          else scanLoopF linelen line fuel f1
        else scanLoopF linelen line fuel (skipLong linelen f1)

/-- The config scan loop, with enough fuel for any stream. -/
def scanLoop (linelen : Nat) (line : List Char) (f : CFile) : Bool :=
  scanLoopF linelen line (f.bytes.length + 1) f

/-- Split a byte string into its first line (including the newline when
present) and the remainder. -/
def firstLineSplit : List Char → List Char × List Char
  | [] => ([], [])
  | c :: rest =>
    if c = '\n' then ([c], rest)
    else
      let r := firstLineSplit rest
      (c :: r.1, r.2)

/-- Fuelled decomposition of a byte string into its lines; every line keeps
its trailing newline, except a final line at EOF without one. -/
def linesOfF : Nat → List Char → List (List Char)
  | 0, _ => []
  | _ + 1, [] => []
  | fuel + 1, c :: rest =>
    let r := firstLineSplit (c :: rest)
    r.1 :: linesOfF fuel r.2

/-- The lines of a byte string (each keeping its newline when it has one). -/
def linesOf (s : List Char) : List (List Char) :=
  linesOfF (s.length + 1) s

/-- How the process can leave `main`: a fatal diagnostic exit, a `USAGE()`
exit (both with `ERR_EXIT_CODE`), entry into the device provisioner
(`create_fundamental_devices` / `unlink_fundamental_devices` on the final
path), or the `execve` hand-off carrying the program, the shifted argv, the
environment block passed to `execve`, the environment visible to the
process at that point, and the credentials at that point. -/
inductive MainOutcome where
  | errExit : Msg → MainOutcome
  | usageExit : MainOutcome
  | installDevices : List Char → MainOutcome
  | uninstallDevices : List Char → MainOutcome
  | exec : List Char → List (List Char) → List (List Char) → List (List Char) →
      Creds → MainOutcome
deriving DecidableEq, Repr

/-- Result of the path-splitting block (lines 270-303): a rejection through
the `USAGE()` macro, the dot-leaf fatal rejection, or the two halves. -/
inductive SplitRes where
  | usage : SplitRes
  | dot : SplitRes
  | ok : List Char → List Char → SplitRes
deriving DecidableEq, Repr

/-- The path-splitting block of `main` (lines 270-303): require a leading
slash, split at the last slash into `base_path` and `relative_path`, reject
an empty base ("not a possible target", via `USAGE()`), an empty leaf
("Trailing slashes", via `USAGE()`), and a leaf equal to [.] or [..]
(fatal exit without the usage text). -/
def split_target (path : List Char) : SplitRes :=
  if path.head? ≠ some '/' then SplitRes.usage
  else
    match lastSlashIdx path with
    | none => SplitRes.usage
    | some i =>
      let base_path := path.take i
      let relative_path := path.drop (i + 1)
      if base_path = [] then SplitRes.usage
      else if relative_path = [] then SplitRes.usage
      else if relative_path = ['.'] ∨ relative_path = ['.', '.'] then SplitRes.dot
      else SplitRes.ok base_path relative_path

/-- `portable_clearenv` (lines 173-209): returns normally iff no entry of
the environment block is corrupted (`strcspn(entry, "=") == 0`, i.e. the
entry is empty or starts with [=]); afterwards the visible environment is
empty.  `unsetenv` itself is modelled as succeeding. -/
def portable_clearenv (env : List (List Char)) : Bool :=
  env.all fun e =>
    match e with
    | [] => false
    | c :: _ => c != '='

/-- The literal "--install-devices" (17 characters). -/
def installFlag : List Char := "--install-devices".data

/-- The literal "--uninstall-devices" (19 characters). -/
def uninstallFlag : List Char := "--uninstall-devices".data

/-- Everything outside the process that `main` consults: the compiled-in
config path, the lstat view, the `fstat` of the opened config descriptor,
the `fopen` result (the readable bytes), the `fclose` result, the user
database (`getpwuid`, uid to account name), the entry credentials, the entry
environment block, the argument vector, and the success of the `chdir`,
`chroot` and final `chdir` calls. -/
structure World where
  cfg : List Char
  fs : Fs
  fstatConfig : Option Stat
  configOpen : Option (List Char)
  fcloseOk : Bool
  pw_name : Nat → Option (List Char)
  creds : Creds
  environ : List (List Char)
  argv : List (List Char)
  chdirFinalOk : Bool
  chrootOk : Bool
  chdirRootOk : Bool

/-- `main` (userchroot.c lines 211-477), transcribed check for check in
source order.  `malloc` and `snprintf` failures are not modelled (the
buffers are exact-size and the formats cannot fail).  After
`portable_clearenv` succeeds the visible environment is `[]`; the block
handed to `execve` is the entry parameter `w.environ` (line 471). -/
def main (w : World) : MainOutcome :=
  if portable_clearenv w.environ = false then MainOutcome.errExit Msg.corruptedEnv
  else if w.creds.euid ≠ 0 then MainOutcome.errExit Msg.needRootPrivileges
  else if w.creds.rgid = 0 ∨ w.creds.egid = 0 then MainOutcome.errExit Msg.setgidRoot
  else if w.creds.ruid = 0 then MainOutcome.errExit Msg.runAsRoot
  else
    match w.configOpen with
    | none => MainOutcome.errExit Msg.openConfigFailed
    | some configBytes =>
      match check_config_file w.fs w.cfg w.fstatConfig with
      | none => MainOutcome.errExit Msg.configCheckFailed
      | some _ =>
        match w.argv with
        | _a0 :: path :: a2 :: argvRest =>
          if whitelist_char_check path true = false then MainOutcome.errExit Msg.nonWhitelisted
          else
            match w.fs path with
            | none => MainOutcome.usageExit
            | some dirstat =>
              if S_ISDIR dirstat.st_mode = false then MainOutcome.usageExit
              else if dirstat.st_mode &&& 0o022 ≠ 0 then
                MainOutcome.errExit Msg.nonRestrictivePerms
              else
                match split_target path with
                | SplitRes.usage => MainOutcome.usageExit
                | SplitRes.dot => MainOutcome.errExit Msg.dotLeaf
                | SplitRes.ok base_path relative_path =>
                  if whitelist_char_check base_path true = false then
                    MainOutcome.errExit Msg.nonWhitelisted
                  else if whitelist_char_check relative_path false = false then
                    MainOutcome.errExit Msg.nonWhitelisted
                  else
                    match w.fs base_path with
                    | none => MainOutcome.usageExit
                    | some statbase_path =>
                      if S_ISDIR statbase_path.st_mode = false then MainOutcome.usageExit
                      else if statbase_path.st_mode &&& 0o022 ≠ 0 then
                        MainOutcome.errExit Msg.nonRestrictivePerms
                      else if statbase_path.st_uid ≠ dirstat.st_uid then
                        MainOutcome.errExit Msg.ownerMismatch
                      else
                        match w.pw_name statbase_path.st_uid with
                        | none => MainOutcome.errExit Msg.getpwuidFailed
                        | some owner_name =>
                          if check_base_path w.fs base_path = false then
                            MainOutcome.errExit Msg.basePathFailed
                          else
                            let linelen := owner_name.length + base_path.length + 3
                            let line := owner_name ++ ':' :: base_path ++ ['\n']
                            let found := scanLoop linelen line (CFile.mk configBytes false)
                            if w.fcloseOk = false then MainOutcome.errExit Msg.closeFailed
                            else if found = false then
                              MainOutcome.errExit Msg.permissionDenied
                            else
                              let final_path := base_path ++ '/' :: relative_path
                              match a2 with
                              | '-' :: _ =>
                                if w.creds.ruid ≠ statbase_path.st_uid then
                                  MainOutcome.errExit Msg.notOwner
                                else if strncmpIsZero 17 (installFlag ++ [charNul])
                                    (a2 ++ [charNul]) then
                                  MainOutcome.installDevices final_path
                                else if strncmpIsZero 19 (uninstallFlag ++ [charNul])
                                    (a2 ++ [charNul]) then
                                  MainOutcome.uninstallDevices final_path
                                else MainOutcome.usageExit
                              | _ =>
                                if w.chdirFinalOk = false then
                                  MainOutcome.errExit Msg.chdirFailed
                                else if w.chrootOk = false then
                                  MainOutcome.errExit Msg.chrootFailed
                                else
                                  match dropPrivileges w.creds w.creds.ruid with
                                  | none => MainOutcome.errExit Msg.dropFailed
                                  | some c2 =>
                                    if w.chdirRootOk = false then
                                      MainOutcome.errExit Msg.chdirRootFailed
                                    else if whitelist_char_check a2 true = false then
                                      MainOutcome.errExit Msg.nonWhitelisted
                                    else MainOutcome.exec a2 (a2 :: argvRest) w.environ [] c2
        | _ => MainOutcome.usageExit

/-! ### Concrete worlds used by the witnesses and counterexamples -/

/-- A small healthy filesystem: root-owned `/etc` and `/srv`, a root-owned
regular config file, and an `alice`-owned (uid 1001) jail `/srv/jails/work`
under the root-owned `/srv`. -/
def happyFs : Fs := fun p =>
  if p = "/etc".data then some (Stat.mk 1 10 0o040755 0)
  else if p = "/etc/uc.conf".data then some (Stat.mk 1 11 0o100644 0)
  else if p = "/srv".data then some (Stat.mk 1 20 0o040755 0)
  else if p = "/srv/jails".data then some (Stat.mk 1 21 0o040750 1001)
  else if p = "/srv/jails/work".data then some (Stat.mk 1 22 0o040750 1001)
  else none

/-- The happy-path world: uid 1001 (`alice`) authorized by the config line
to chroot into `/srv/jails/work` and run `/bin/sh`. -/
def happyWorld : World where
  cfg := "/etc/uc.conf".data
  fs := happyFs
  fstatConfig := some (Stat.mk 1 11 0o100644 0)
  configOpen := some "alice:/srv/jails\n".data
  fcloseOk := true
  pw_name := fun u => if u = 1001 then some "alice".data else none
  creds := Creds.mk 1001 0 0 100 100 100
  environ := ["PATH=/usr/bin".data]
  argv := ["userchroot".data, "/srv/jails/work".data, "/bin/sh".data]
  chdirFinalOk := true
  chrootOk := true
  chdirRootOk := true

/-- The happy world, except that `fstat` of the opened descriptor reports a
different inode than the path-based `lstat` of the config path: the
time-of-check/time-of-use swap that scenario 5 of the specification expects
to be fatal. -/
def swappedConfigWorld : World :=
  { happyWorld with fstatConfig := some (Stat.mk 1 12 0o100644 0) }

/-- The happy world, except that the config path names a FIFO (mode
0o010600, still root-owned and not group/other-writable) instead of a
regular file. -/
def fifoConfigWorld : World :=
  { happyWorld with
    fs := fun p =>
      if p = "/etc/uc.conf".data then some (Stat.mk 1 11 0o010600 0) else happyFs p
    fstatConfig := some (Stat.mk 1 11 0o010600 0) }

/-- The happy world with second positional "--install-devicesfoo": it begins
with [-] and is not one of the two recognized flags. -/
def suffixFlagWorld : World :=
  { happyWorld with
    argv := ["userchroot".data, "/srv/jails/work".data, "--install-devicesfoo".data] }

/-- The happy world with second positional "--install-devices". -/
def installWorld : World :=
  { happyWorld with
    argv := ["userchroot".data, "/srv/jails/work".data, "--install-devices".data] }

/-- The happy world with second positional "--frobnicate": a dash argument
matching neither flag even in its first bytes. -/
def unknownFlagWorld : World :=
  { happyWorld with
    argv := ["userchroot".data, "/srv/jails/work".data, "--frobnicate".data] }

/-- `installWorld` as invoked by uid 1002 (`bob`), who is not the owner
(uid 1001) of the jail. -/
def bobInstallWorld : World :=
  { installWorld with creds := Creds.mk 1002 0 0 100 100 100 }

/-- A filesystem whose root directory is group/other-writable and not owned
by uid 0, while the first-level directory `/a` is impeccable. -/
def badRootFs : Fs := fun p =>
  if p = "/".data then some (Stat.mk 1 1 0o040777 1001)
  else if p = "/a".data then some (Stat.mk 1 2 0o040755 0)
  else none

/-- A config stream whose first line hides a NUL byte before its newline,
followed by a line that is exactly the authorized `alice:/srv/jails` entry. -/
def nulConfigBytes : List Char :=
  'a' :: charNul :: '\n' :: "alice:/srv/jails\n".data

/-! ### Facts about the last-slash search -/

theorem lastSlashIdx_lt_length {s : List Char} {i : Nat} (h : lastSlashIdx s = some i) :
    i < s.length := by
  induction s generalizing i with
  | nil => simp [lastSlashIdx] at h
  | cons c rest ih =>
    rw [lastSlashIdx] at h
    cases hr : lastSlashIdx rest with
    | some j =>
      rw [hr] at h
      cases h
      exact Nat.succ_lt_succ (ih hr)
    | none =>
      rw [hr] at h
      by_cases hc : c = '/'
      · rw [if_pos hc] at h
        cases h
        simp
      · rw [if_neg hc] at h
        cases h

theorem lastSlashIdx_get {s : List Char} {i : Nat} (h : lastSlashIdx s = some i) :
    s.get? i = some '/' := by
  induction s generalizing i with
  | nil => simp [lastSlashIdx] at h
  | cons c rest ih =>
    rw [lastSlashIdx] at h
    cases hr : lastSlashIdx rest with
    | some j =>
      rw [hr] at h
      cases h
      simpa using ih hr
    | none =>
      rw [hr] at h
      by_cases hc : c = '/'
      · rw [if_pos hc] at h
        cases h
        simp [hc]
      · rw [if_neg hc] at h
        cases h

theorem lastSlashIdx_none {s : List Char} (h : lastSlashIdx s = none) :
    ∀ j, s.get? j ≠ some '/' := by
  induction s with
  | nil => intro j; simp
  | cons c rest ih =>
    intro j
    rw [lastSlashIdx] at h
    cases hr : lastSlashIdx rest with
    | some i => rw [hr] at h; cases h
    | none =>
      rw [hr] at h
      by_cases hc : c = '/'
      · rw [if_pos hc] at h; cases h
      · rw [if_neg hc] at h
        cases j with
        | zero => simpa using fun he => hc he
        | succ j => simpa using ih hr j

theorem lastSlashIdx_max {s : List Char} {i : Nat} (h : lastSlashIdx s = some i) :
    ∀ j, i < j → s.get? j ≠ some '/' := by
  induction s generalizing i with
  | nil => simp [lastSlashIdx] at h
  | cons c rest ih =>
    rw [lastSlashIdx] at h
    cases hr : lastSlashIdx rest with
    | some k =>
      rw [hr] at h
      cases h
      intro j hj
      cases j with
      | zero => omega
      | succ j => simpa using ih hr j (Nat.lt_of_succ_lt_succ hj)
    | none =>
      rw [hr] at h
      by_cases hc : c = '/'
      · rw [if_pos hc] at h
        cases h
        intro j hj
        cases j with
        | zero => omega
        | succ j => simpa using lastSlashIdx_none hr j
      · rw [if_neg hc] at h
        cases h

theorem lastSlashIdx_of_head {s : List Char} (h : s.head? = some '/') :
    ∃ i, lastSlashIdx s = some i := by
  cases s with
  | nil => simp at h
  | cons c rest =>
    simp only [List.head?] at h
    cases h
    rw [lastSlashIdx]
    cases hr : lastSlashIdx rest with
    | some j => exact ⟨j + 1, rfl⟩
    | none => exact ⟨0, by simp⟩

/-! ### Fuel congruence for the ancestor walk -/

theorem check_base_pathF_congr (fs : Fs) :
    ∀ f₁ f₂ t, t.length < f₁ → t.length < f₂ →
      check_base_pathF fs f₁ t = check_base_pathF fs f₂ t := by
  intro f₁
  induction f₁ with
  | zero => intro f₂ t h₁; omega
  | succ n ih =>
    intro f₂ t h₁ h₂
    cases f₂ with
    | zero => omega
    | succ m =>
      simp only [check_base_pathF]
      cases hl : lastSlashIdx t with
      | none => rfl
      | some i =>
        cases i with
        | zero => rfl
        | succ i =>
          dsimp only
          have hlt := lastSlashIdx_lt_length hl
          have ht : (t.take (i + 1)).length = i + 1 := by
            rw [List.length_take]; omega
          rw [ih m (t.take (i + 1)) (by omega) (by omega)]

theorem check_base_path_unfold (fs : Fs) (t : List Char) :
    check_base_path fs t =
      match lastSlashIdx t with
      | none => false
      | some 0 => dirOk fs t
      | some (i + 1) => dirOk fs (t.take (i + 1)) && check_base_path fs (t.take (i + 1)) := by
  show check_base_pathF fs (t.length + 1) t = _
  simp only [check_base_pathF]
  cases hl : lastSlashIdx t with
  | none => rfl
  | some i =>
    cases i with
    | zero => rfl
    | succ i =>
      dsimp only
      have hlt := lastSlashIdx_lt_length hl
      have ht : (t.take (i + 1)).length = i + 1 := by
        rw [List.length_take]; omega
      rw [check_base_pathF_congr fs t.length ((t.take (i + 1)).length + 1) _ (by omega) (by omega)]
      rfl

theorem basePathChainF_congr :
    ∀ f₁ f₂ t, t.length < f₁ → t.length < f₂ →
      basePathChainF f₁ t = basePathChainF f₂ t := by
  intro f₁
  induction f₁ with
  | zero => intro f₂ t h₁; omega
  | succ n ih =>
    intro f₂ t h₁ h₂
    cases f₂ with
    | zero => omega
    | succ m =>
      simp only [basePathChainF]
      cases hl : lastSlashIdx t with
      | none => rfl
      | some i =>
        cases i with
        | zero => rfl
        | succ i =>
          dsimp only
          have hlt := lastSlashIdx_lt_length hl
          have ht : (t.take (i + 1)).length = i + 1 := by
            rw [List.length_take]; omega
          rw [ih m (t.take (i + 1)) (by omega) (by omega)]

theorem basePathChain_unfold (t : List Char) :
    basePathChain t =
      match lastSlashIdx t with
      | none => none
      | some 0 => some [t]
      | some (i + 1) =>
        match basePathChain (t.take (i + 1)) with
        | none => none
        | some l => some (t.take (i + 1) :: l) := by
  show basePathChainF (t.length + 1) t = _
  simp only [basePathChainF]
  cases hl : lastSlashIdx t with
  | none => rfl
  | some i =>
    cases i with
    | zero => rfl
    | succ i =>
      dsimp only
      have hlt := lastSlashIdx_lt_length hl
      have ht : (t.take (i + 1)).length = i + 1 := by
        rw [List.length_take]; omega
      rw [basePathChainF_congr t.length ((t.take (i + 1)).length + 1) _ (by omega) (by omega)]
      rfl

/-! ### The ancestor walk: pass/fail equals all statted entries passing -/

theorem check_base_path_eq_chain_aux (fs : Fs) :
    ∀ N p, p.length < N →
      check_base_path fs p =
        (match basePathChain p with
         | none => false
         | some l => l.all (dirOk fs)) := by
  intro N
  induction N with
  | zero => intro p hp; omega
  | succ n ih =>
    intro p hp
    rw [check_base_path_unfold, basePathChain_unfold]
    cases hl : lastSlashIdx p with
    | none => rfl
    | some i =>
      cases i with
      | zero => simp
      | succ i =>
        dsimp only
        have hlt := lastSlashIdx_lt_length hl
        have hlen : (p.take (i + 1)).length = i + 1 := by
          rw [List.length_take]; omega
        rw [ih (p.take (i + 1)) (by omega)]
        cases hc : basePathChain (p.take (i + 1)) with
        | none => simp
        | some l => simp

theorem check_base_path_eq_chain (fs : Fs) (p : List Char) :
    check_base_path fs p =
      (match basePathChain p with
       | none => false
       | some l => l.all (dirOk fs)) :=
  check_base_path_eq_chain_aux fs (p.length + 1) p (Nat.lt_succ_self _)

/-! ### What the ancestor walk actually stats -/

theorem basePathChain_spec_aux :
    ∀ N p, p.length < N → p.head? = some '/' →
      ∃ l, basePathChain p = some l ∧ l ≠ [] ∧
        (∀ fs, check_base_path fs p = l.all (dirOk fs)) ∧
        (∀ q ∈ l, q ≠ [] ∧ q = p.take q.length ∧ q.head? = some '/' ∧
          (q.length = p.length ∨ p.get? q.length = some '/')) ∧
        (∀ i, lastSlashIdx p = some (i + 1) → l.head? = some (p.take (i + 1))) ∧
        (lastSlashIdx p = some 0 → l = [p]) ∧
        ((['/'] : List Char) ∈ l → p.take 2 = ['/', '/'] ∨ p = ['/']) := by
  intro N
  induction N with
  | zero => intro p hp; omega
  | succ n ih =>
    intro p hp hhead
    obtain ⟨j, hj⟩ := lastSlashIdx_of_head hhead
    have hpne : p ≠ [] := by
      intro he; rw [he] at hhead; simp at hhead
    cases j with
    | zero =>
      refine ⟨[p], ?_, by simp, ?_, ?_, ?_, ?_, ?_⟩
      · rw [basePathChain_unfold, hj]
      · intro fs
        rw [check_base_path_unfold, hj]
        simp
      · intro q hq
        rw [List.mem_singleton] at hq
        subst hq
        exact ⟨hpne, (List.take_length q).symm, hhead, Or.inl rfl⟩
      · intro i hi
        rw [hj] at hi
        cases hi
      · intro _; rfl
      · intro hmem
        rw [List.mem_singleton] at hmem
        exact Or.inr hmem.symm
    | succ i =>
      have hlt := lastSlashIdx_lt_length hj
      have hlen : (p.take (i + 1)).length = i + 1 := by
        rw [List.length_take]; omega
      have hthead : (p.take (i + 1)).head? = some '/' := by
        cases p with
        | nil => simp at hhead
        | cons c rest =>
          simp only [List.head?] at hhead ⊢
          rw [List.take_succ_cons]
          simpa using hhead
      obtain ⟨l', hchain', hne', hcheck', hmem', hhd', hzero', hroot'⟩ :=
        ih (p.take (i + 1)) (by omega) hthead
      have hslash : p.get? (i + 1) = some '/' := lastSlashIdx_get hj
      refine ⟨p.take (i + 1) :: l', ?_, by simp, ?_, ?_, ?_, ?_, ?_⟩
      · rw [basePathChain_unfold, hj]
        dsimp only
        rw [hchain']
      · intro fs
        rw [check_base_path_unfold, hj]
        dsimp only
        rw [hcheck' fs]
        simp
      · intro q hq
        rcases List.mem_cons.mp hq with hq | hq
        · subst hq
          refine ⟨?_, ?_, hthead, Or.inr ?_⟩
          · intro he
            rw [he] at hlen
            simp at hlen
          · rw [hlen]
          · rw [hlen]
            exact hslash
        · obtain ⟨hqne, hqtake, hqhead, hqdis⟩ := hmem' q hq
          have hqlen : q.length ≤ i + 1 := by
            have := congrArg List.length hqtake
            rw [List.length_take] at this
            omega
          refine ⟨hqne, ?_, hqhead, ?_⟩
          · calc q = (p.take (i + 1)).take q.length := hqtake
              _ = p.take (min q.length (i + 1)) := List.take_take _ _ _
              _ = p.take q.length := by rw [Nat.min_eq_left hqlen]
          · rcases hqdis with hq1 | hq2
            · rw [hlen] at hq1
              rw [hq1]
              exact Or.inr hslash
            · have hqlt : q.length < i + 1 := by
                by_contra hcon
                rw [List.get?_eq_none.mpr (by omega)] at hq2
                cases hq2
              rw [List.get?_take hqlt] at hq2
              exact Or.inr hq2
      · intro i' hi'
        rw [hj] at hi'
        cases hi'
        rfl
      · intro h0
        rw [hj] at h0
        cases h0
      · intro hmem
        rcases List.mem_cons.mp hmem with hq | hq
        · have h1 : i + 1 = 1 := by
            have := congrArg List.length hq
            rw [hlen] at this
            simpa using this
          left
          have hp1 : p.get? 1 = some '/' := by
            rw [← h1]; exact hslash
          cases p with
          | nil => simp at hhead
          | cons c rest =>
            cases rest with
            | nil => simp at hp1
            | cons c2 rest2 =>
              simp only [List.head?] at hhead
              cases hhead
              simp only [List.get?] at hp1
              cases hp1
              rfl
        · rcases hroot' hq with hq2 | hq1
          · left
            rw [List.take_take] at hq2
            have hlen2 := congrArg List.length hq2
            rw [List.length_take] at hlen2
            simp only [List.length_cons, List.length_nil] at hlen2
            have hmin : min (min 2 (i + 1)) p.length = 2 := hlen2
            have hminq : min 2 (i + 1) = 2 := by omega
            rw [hminq] at hq2
            exact hq2
          · left
            have h1 : i + 1 = 1 := by
              have := congrArg List.length hq1
              rw [hlen] at this
              simpa using this
            have hp1 : p.get? 1 = some '/' := by
              rw [← h1]; exact hslash
            cases p with
            | nil => simp at hhead
            | cons c rest =>
              cases rest with
              | nil => simp at hp1
              | cons c2 rest2 =>
                simp only [List.head?] at hhead
                cases hhead
                simp only [List.get?] at hp1
                cases hp1
                rfl

theorem basePathChain_spec (p : List Char) (hhead : p.head? = some '/') :
    ∃ l, basePathChain p = some l ∧ l ≠ [] ∧
      (∀ fs, check_base_path fs p = l.all (dirOk fs)) ∧
      (∀ q ∈ l, q ≠ [] ∧ q = p.take q.length ∧ q.head? = some '/' ∧
        (q.length = p.length ∨ p.get? q.length = some '/')) ∧
      (∀ i, lastSlashIdx p = some (i + 1) → l.head? = some (p.take (i + 1))) ∧
      (lastSlashIdx p = some 0 → l = [p]) ∧
      ((['/'] : List Char) ∈ l → p.take 2 = ['/', '/'] ∨ p = ['/']) :=
  basePathChain_spec_aux (p.length + 1) p (Nat.lt_succ_self _) hhead

/-! ### The privilege drop -/

theorem dropPrivileges_spec {c c2 : Creds} {t : Nat} (heuid : c.euid = 0) (ht : t ≠ 0)
    (h : dropPrivileges c t = some c2) :
    c2.ruid = t ∧ c2.euid = t ∧ c2.suid = t ∧
    c2.rgid = c.rgid ∧ c2.egid = c.egid ∧ c2.rgid ≠ 0 ∧ c2.egid ≠ 0 ∧
    (sys_setuid c2 0).1 = false ∧ (sys_seteuid c2 0).1 = false ∧
    (sys_setgid c2 0).1 = false ∧ (sys_setegid c2 0).1 = false := by
  unfold dropPrivileges at h
  rw [sys_setuid, if_pos heuid] at h
  dsimp only at h
  set c1 : Creds := { c with ruid := t, euid := t, suid := t } with hc1
  have he1 : c1.euid = t := rfl
  have hr1 : c1.ruid = t := rfl
  have hs1 : c1.suid = t := rfl
  have h1 : sys_setuid c1 0 = (false, c1) := by
    rw [sys_setuid, if_neg (by omega), if_neg (by rw [hr1, hs1]; omega)]
  have h2 : sys_seteuid c1 0 = (false, c1) := by
    rw [sys_seteuid, if_neg (by rw [he1, hr1, hs1]; omega)]
  rw [h1] at h
  dsimp only at h
  rw [h2] at h
  dsimp only at h
  by_cases hg : (0 = c1.rgid ∨ 0 = c1.sgid)
  · rw [sys_setgid, if_neg (by omega), if_pos hg] at h
    dsimp only at h
    cases h
  · rw [sys_setgid, if_neg (by omega), if_neg hg] at h
    dsimp only at h
    by_cases hg2 : (c1.euid = 0 ∨ 0 = c1.rgid ∨ 0 = c1.sgid)
    · rw [sys_setegid, if_pos hg2] at h
      dsimp only at h
      cases h
    · rw [sys_setegid, if_neg hg2] at h
      dsimp only at h
      by_cases hz : (c1.ruid = 0 ∨ c1.euid = 0 ∨ c1.rgid = 0 ∨ c1.egid = 0)
      · rw [if_pos hz] at h
        cases h
      · rw [if_neg hz] at h
        obtain rfl := Option.some.inj h
        push_neg at hz
        obtain ⟨hz1, hz2, hz3, hz4⟩ := hz
        have hgattempt : (sys_setgid c1 0).1 = false := by
          rw [sys_setgid, if_neg (by omega), if_neg hg]
        have hg2attempt : (sys_setegid c1 0).1 = false := by
          rw [sys_setegid, if_neg hg2]
        exact ⟨hr1, he1, hs1, rfl, rfl, hz3, hz4,
          by rw [h1], by rw [h2], hgattempt, hg2attempt⟩

/-! ### Facts about single reads -/

theorem readLine_le : ∀ n (s : List Char), (readLine n s).2.1.length ≤ s.length := by
  intro n
  induction n with
  | zero => intro s; simp [readLine]
  | succ n ih =>
    intro s
    cases s with
    | nil => simp [readLine]
    | cons c rest =>
      rw [readLine]
      by_cases hc : c = '\n'
      · rw [if_pos hc]
        simp
      · rw [if_neg hc]
        dsimp only
        exact Nat.le_succ_of_le (ih rest)

theorem readLine_lt {c : Char} {cs : List Char} {n : Nat} (hn : 1 ≤ n) :
    (readLine n (c :: cs)).2.1.length < (c :: cs).length := by
  cases n with
  | zero => omega
  | succ n =>
    rw [readLine]
    by_cases hc : c = '\n'
    · rw [if_pos hc]
      simp
    · rw [if_neg hc]
      dsimp only
      exact Nat.lt_succ_of_le (readLine_le n cs)

theorem readLine_newline : ∀ {n : Nat} (x y : List Char), '\n' ∉ x → x.length < n →
    readLine n (x ++ '\n' :: y) = (x ++ ['\n'], y, StopReason.newline) := by
  intro n x
  induction x generalizing n with
  | nil =>
    intro y _ hn
    cases n with
    | zero => omega
    | succ n => simp [readLine]
  | cons c xs ih =>
    intro y hmem hn
    cases n with
    | zero => omega
    | succ n =>
      have hc : c ≠ '\n' := fun he => hmem (by simp [he])
      rw [List.cons_append, readLine, if_neg hc]
      rw [ih y (fun hm => hmem (List.mem_cons_of_mem _ hm)) (by simpa using Nat.lt_of_succ_lt_succ hn)]
      rfl

theorem readLine_limit : ∀ (n : Nat) (s : List Char), '\n' ∉ s.take n → n ≤ s.length →
    readLine n s = (s.take n, s.drop n, StopReason.limit) := by
  intro n
  induction n with
  | zero => intro s _ _; simp [readLine]
  | succ n ih =>
    intro s hmem hn
    cases s with
    | nil => simp at hn
    | cons c rest =>
      have hc : c ≠ '\n' := by
        intro he
        exact hmem (by simp [he])
      rw [readLine, if_neg hc]
      dsimp only
      rw [ih rest (fun hm => hmem (by simp [List.take_succ_cons]; exact Or.inr hm)) (by simpa using hn)]
      simp [List.take_succ_cons, List.drop_succ_cons]

theorem readLine_eof : ∀ {n : Nat} (s : List Char), '\n' ∉ s → s.length < n →
    readLine n s = (s, [], StopReason.eof) := by
  intro n s
  induction s generalizing n with
  | nil =>
    intro _ hn
    cases n with
    | zero => omega
    | succ n => simp [readLine]
  | cons c rest ih =>
    intro hmem hn
    cases n with
    | zero => omega
    | succ n =>
      have hc : c ≠ '\n' := fun he => hmem (by simp [he])
      rw [readLine, if_neg hc]
      rw [ih (fun hm => hmem (List.mem_cons_of_mem _ hm)) (by simpa using Nat.lt_of_succ_lt_succ hn)]

/-! ### Facts about line decomposition -/

theorem firstLineSplit_shape : ∀ (x y : List Char), '\n' ∉ x →
    firstLineSplit (x ++ '\n' :: y) = (x ++ ['\n'], y) := by
  intro x
  induction x with
  | nil => intro y _; simp [firstLineSplit]
  | cons c xs ih =>
    intro y hmem
    have hc : c ≠ '\n' := fun he => hmem (by simp [he])
    rw [List.cons_append, firstLineSplit, if_neg hc]
    rw [ih y (fun hm => hmem (List.mem_cons_of_mem _ hm))]
    rfl

theorem firstLineSplit_no_newline : ∀ (s : List Char), '\n' ∉ s →
    firstLineSplit s = (s, []) := by
  intro s
  induction s with
  | nil => intro _; rfl
  | cons c rest ih =>
    intro hmem
    have hc : c ≠ '\n' := fun he => hmem (by simp [he])
    rw [firstLineSplit, if_neg hc]
    rw [ih (fun hm => hmem (List.mem_cons_of_mem _ hm))]

theorem firstLineSplit_mem : ∀ {s : List Char}, '\n' ∈ s →
    ∃ x y, s = x ++ '\n' :: y ∧ '\n' ∉ x := by
  intro s
  induction s with
  | nil => intro h; simp at h
  | cons c rest ih =>
    intro h
    by_cases hc : c = '\n'
    · exact ⟨[], rest, by simp [hc], by simp⟩
    · have hr : '\n' ∈ rest := by
        rcases List.mem_cons.mp h with h1 | h1
        · exact absurd h1.symm hc
        · exact h1
      obtain ⟨x, y, hxy, hx⟩ := ih hr
      exact ⟨c :: x, y, by simp [hxy], by
        intro hm
        rcases List.mem_cons.mp hm with h1 | h1
        · exact hc h1.symm
        · exact hx h1⟩

theorem firstLineSplit_append : ∀ (s : List Char),
    (firstLineSplit s).1 ++ (firstLineSplit s).2 = s := by
  intro s
  induction s with
  | nil => rfl
  | cons c rest ih =>
    rw [firstLineSplit]
    by_cases hc : c = '\n'
    · rw [if_pos hc]
      simp [hc]
    · rw [if_neg hc]
      simpa using ih

theorem firstLineSplit_fst_ne {s : List Char} (h : s ≠ []) :
    (firstLineSplit s).1 ≠ [] := by
  cases s with
  | nil => exact absurd rfl h
  | cons c rest =>
    rw [firstLineSplit]
    by_cases hc : c = '\n'
    · rw [if_pos hc]; simp
    · rw [if_neg hc]; simp

theorem firstLineSplit_snd_lt {s : List Char} (h : s ≠ []) :
    (firstLineSplit s).2.length < s.length := by
  have happ := firstLineSplit_append s
  have hne := firstLineSplit_fst_ne h
  have := congrArg List.length happ
  rw [List.length_append] at this
  have h1 : 1 ≤ (firstLineSplit s).1.length := by
    cases hq : (firstLineSplit s).1 with
    | nil => exact absurd hq hne
    | cons a b => simp
  omega

theorem linesOfF_congr : ∀ f₁ f₂ (s : List Char), s.length < f₁ → s.length < f₂ →
    linesOfF f₁ s = linesOfF f₂ s := by
  intro f₁
  induction f₁ with
  | zero => intro f₂ s h₁; omega
  | succ n ih =>
    intro f₂ s h₁ h₂
    cases f₂ with
    | zero => omega
    | succ m =>
      cases s with
      | nil => rfl
      | cons c rest =>
        rw [linesOfF, linesOfF]
        have hlt := firstLineSplit_snd_lt (s := c :: rest) (by simp)
        rw [ih m (firstLineSplit (c :: rest)).2 (by omega) (by omega)]

theorem linesOf_cons {s : List Char} (h : s ≠ []) :
    linesOf s = (firstLineSplit s).1 :: linesOf (firstLineSplit s).2 := by
  cases s with
  | nil => exact absurd rfl h
  | cons c rest =>
    show linesOfF ((c :: rest).length + 1) (c :: rest) = _
    rw [linesOfF]
    have hlt := firstLineSplit_snd_lt (s := c :: rest) (by simp)
    rw [linesOfF_congr ((c :: rest).length) ((firstLineSplit (c :: rest)).2.length + 1)
      (firstLineSplit (c :: rest)).2 (by simpa using hlt) (by omega)]
    rfl

/-! ### Facts about the C string routines -/

theorem strchrFound_iff {buf : List Char} (hnul : charNul ∉ buf) (c : Char) :
    strchrFound buf c = true ↔ c ∈ buf := by
  induction buf with
  | nil => simp [strchrFound]
  | cons b rest ih =>
    have hb : b ≠ charNul := fun he => hnul (by simp [he])
    rw [strchrFound, if_neg hb]
    by_cases hbc : b = c
    · rw [if_pos hbc]
      simp [hbc]
    · rw [if_neg hbc]
      rw [ih (fun hm => hnul (List.mem_cons_of_mem _ hm))]
      constructor
      · exact fun hm => List.mem_cons_of_mem _ hm
      · intro hm
        rcases List.mem_cons.mp hm with h1 | h1
        · exact absurd h1.symm hbc
        · exact h1

theorem strncmpIsZero_iff : ∀ {n : Nat} {a b : List Char}, charNul ∉ a → charNul ∉ b →
    a.length < n →
    (strncmpIsZero n (a ++ [charNul]) (b ++ [charNul]) = true ↔ a = b) := by
  intro n a
  induction a generalizing n with
  | nil =>
    intro b hna hnb hlen
    cases n with
    | zero => omega
    | succ n =>
      cases b with
      | nil =>
        simp [strncmpIsZero]
      | cons y bs =>
        have hy2 : charNul ≠ y := fun he => hnb (by rw [← he]; simp)
        rw [List.nil_append, List.cons_append, strncmpIsZero, if_pos hy2]
        simp
  | cons x as ih =>
    intro b hna hnb hlen
    cases n with
    | zero => omega
    | succ n =>
      have hx : x ≠ charNul := fun he => hna (by simp [he])
      cases b with
      | nil =>
        rw [List.cons_append, List.nil_append, strncmpIsZero, if_pos hx]
        simp
      | cons y bs =>
        rw [List.cons_append, List.cons_append, strncmpIsZero]
        by_cases hxy : x = y
        · rw [if_neg (fun h => h hxy), if_neg hx]
          rw [ih (fun hm => hna (List.mem_cons_of_mem _ hm))
            (fun hm => hnb (List.mem_cons_of_mem _ hm)) (by simpa using Nat.lt_of_succ_lt_succ hlen)]
          simp [hxy]
        · rw [if_pos hxy]
          simp [hxy]

/-! ### Facts about the modelled stream -/

theorem fgets_bytes_le (size : Nat) (f : CFile) :
    (fgets size f).2.bytes.length ≤ f.bytes.length := by
  rw [fgets]
  by_cases he : f.eof
  · rw [if_pos he]
  · rw [if_neg he]
    cases hb : f.bytes with
    | nil => simp
    | cons c cs =>
      dsimp only
      have := readLine_le (size - 1) (c :: cs)
      simpa [hb] using this

theorem fgets_some_lt {size : Nat} (hs : 2 ≤ size) {f : CFile} {chunk : List Char}
    {f1 : CFile} (h : fgets size f = (some chunk, f1)) :
    f1.bytes.length < f.bytes.length := by
  rw [fgets] at h
  by_cases he : f.eof
  · rw [if_pos he] at h
    simp at h
  · rw [if_neg he] at h
    cases hb : f.bytes with
    | nil =>
      rw [hb] at h
      simp at h
    | cons c cs =>
      rw [hb] at h
      dsimp only at h
      injection h with h1 h2
      subst h2
      have := @readLine_lt c cs (size - 1) (by omega)
      simpa using this

theorem fgets_eq {size : Nat} {s : List Char} (hne : s ≠ []) :
    fgets size (CFile.mk s false) =
      (some (readLine (size - 1) s).1,
       CFile.mk (readLine (size - 1) s).2.1
         ((readLine (size - 1) s).2.2 == StopReason.eof)) := by
  rw [fgets]
  rw [if_neg (by simp)]
  cases s with
  | nil => exact absurd rfl hne
  | cons c cs => rfl

theorem skipLongF_le (linelen : Nat) :
    ∀ fuel f, (skipLongF linelen fuel f).bytes.length ≤ f.bytes.length := by
  intro fuel
  induction fuel with
  | zero => intro f; simp [skipLongF]
  | succ n ih =>
    intro f
    rw [skipLongF]
    by_cases he : f.eof
    · rw [if_pos he]
    · rw [if_neg he]
      rcases hg : fgets linelen f with ⟨res, f1⟩
      have hle1 : f1.bytes.length ≤ f.bytes.length := by
        have := fgets_bytes_le linelen f
        rw [hg] at this
        exact this
      cases res with
      | none => exact hle1
      | some chunk =>
        dsimp only
        by_cases hsf : strchrFound chunk '\n' = true
        · rw [if_pos hsf]
          exact hle1
        · rw [if_neg hsf]
          exact le_trans (ih f1) hle1

theorem skipLong_le (linelen : Nat) (f : CFile) :
    (skipLong linelen f).bytes.length ≤ f.bytes.length :=
  skipLongF_le linelen (f.bytes.length + 1) f

theorem skipLongF_congr {linelen : Nat} (hs : 2 ≤ linelen) :
    ∀ f₁ f₂ f, f.bytes.length < f₁ → f.bytes.length < f₂ →
      skipLongF linelen f₁ f = skipLongF linelen f₂ f := by
  intro f₁
  induction f₁ with
  | zero => intro f₂ f h₁; omega
  | succ n ih =>
    intro f₂ f h₁ h₂
    cases f₂ with
    | zero => omega
    | succ m =>
      rw [skipLongF, skipLongF]
      by_cases he : f.eof
      · rw [if_pos he, if_pos he]
      · rw [if_neg he, if_neg he]
        rcases hg : fgets linelen f with ⟨res, f1⟩
        cases res with
        | none => rfl
        | some chunk =>
          dsimp only
          by_cases hsf : strchrFound chunk '\n' = true
          · rw [if_pos hsf, if_pos hsf]
          · rw [if_neg hsf, if_neg hsf]
            have hlt : f1.bytes.length < f.bytes.length := fgets_some_lt hs hg
            exact ih m f1 (by omega) (by omega)

theorem skipLong_unfold {linelen : Nat} (hs : 2 ≤ linelen) (f : CFile) :
    skipLong linelen f =
      if f.eof then f
      else
        match fgets linelen f with
        | (none, f1) => f1
        | (some chunk, f1) =>
          if strchrFound chunk '\n' then f1 else skipLong linelen f1 := by
  show skipLongF linelen (f.bytes.length + 1) f = _
  rw [skipLongF]
  by_cases he : f.eof
  · rw [if_pos he, if_pos he]
  · rw [if_neg he, if_neg he]
    rcases hg : fgets linelen f with ⟨res, f1⟩
    cases res with
    | none => rfl
    | some chunk =>
      dsimp only
      by_cases hsf : strchrFound chunk '\n' = true
      · rw [if_pos hsf, if_pos hsf]
      · rw [if_neg hsf, if_neg hsf]
        have hlt : f1.bytes.length < f.bytes.length := fgets_some_lt hs hg
        exact skipLongF_congr hs f.bytes.length (f1.bytes.length + 1) f1 (by omega) (by omega)

theorem skipLong_spec {linelen : Nat} (hs : 2 ≤ linelen) :
    ∀ N (s : List Char), s.length < N → charNul ∉ s →
      skipLong linelen (CFile.mk s false) =
        if '\n' ∈ s then CFile.mk (firstLineSplit s).2 false else CFile.mk [] true := by
  intro N
  induction N with
  | zero => intro s h; omega
  | succ n ih =>
    intro s hlen hnul
    rw [skipLong_unfold hs]
    rw [if_neg (by simp)]
    by_cases hne : s = []
    · subst hne
      rw [show fgets linelen (CFile.mk [] false) = (none, CFile.mk [] true) from rfl]
      simp
    · rw [fgets_eq hne]
      by_cases hmem : '\n' ∈ s.take (linelen - 1)
      · -- the first newline is inside the cap
        have hsmem : '\n' ∈ s := List.mem_of_mem_take hmem
        obtain ⟨x, y, hxy, hx⟩ := firstLineSplit_mem hsmem
        have hxlt : x.length < linelen - 1 := by
          by_contra hcon
          have htk : s.take (linelen - 1) = x.take (linelen - 1) := by
            rw [hxy, List.take_append_of_le_length (by omega)]
          rw [htk] at hmem
          exact hx (List.mem_of_mem_take hmem)
        rw [hxy, readLine_newline x y hx hxlt]
        dsimp only
        have hnulx : charNul ∉ x ++ ['\n'] := by
          intro hm
          rcases List.mem_append.mp hm with h1 | h1
          · exact hnul (by rw [hxy]; exact List.mem_append_left _ h1)
          · have : charNul = '\n' := by simpa using h1
            exact absurd this (by decide)
        rw [if_pos (by
          rw [strchrFound_iff hnulx]
          exact List.mem_append_right _ (by simp))]
        have hmem2 : '\n' ∈ x ++ '\n' :: y := by
          rw [← hxy]
          exact hsmem
        rw [if_pos hmem2, firstLineSplit_shape x y hx]
        rw [show (StopReason.newline == StopReason.eof) = false from rfl]
      · -- no newline inside the cap
        by_cases hslen : s.length < linelen - 1
        · have hnos : '\n' ∉ s := by
            intro hm
            exact hmem (by rw [List.take_of_length_le (by omega)]; exact hm)
          rw [readLine_eof s hnos (by omega)]
          dsimp only
          rw [if_neg (by
            rw [strchrFound_iff hnul]
            exact hnos)]
          rw [show (StopReason.eof == StopReason.eof) = true from rfl]
          rw [if_neg hnos]
          rfl
        · have hmle : linelen - 1 ≤ s.length := by omega
          rw [readLine_limit (linelen - 1) s hmem hmle]
          dsimp only
          have hnultk : charNul ∉ s.take (linelen - 1) := by
            intro hm
            exact hnul (List.mem_of_mem_take hm)
          rw [if_neg (by
            rw [strchrFound_iff hnultk]
            exact hmem)]
          rw [show (StopReason.limit == StopReason.eof) = false from rfl]
          have hdlt : (s.drop (linelen - 1)).length < s.length := by
            rw [List.length_drop]
            omega
          have hnuld : charNul ∉ s.drop (linelen - 1) := by
            intro hm
            exact hnul (List.mem_of_mem_drop hm)
          rw [ih (s.drop (linelen - 1)) (by omega) hnuld]
          have hmemiff : ('\n' ∈ s) ↔ ('\n' ∈ s.drop (linelen - 1)) := by
            constructor
            · intro hm
              have hm2 : '\n' ∈ s.take (linelen - 1) ++ s.drop (linelen - 1) := by
                rw [List.take_append_drop]
                exact hm
              rcases List.mem_append.mp hm2 with h1 | h1
              · exact absurd h1 hmem
              · exact h1
            · intro hm
              exact List.mem_of_mem_drop hm
          by_cases hsm : '\n' ∈ s
          · rw [if_pos hsm, if_pos (hmemiff.mp hsm)]
            obtain ⟨x2, y2, hxy2, hx2⟩ := firstLineSplit_mem (hmemiff.mp hsm)
            have hxglob : '\n' ∉ s.take (linelen - 1) ++ x2 := by
              intro hm
              rcases List.mem_append.mp hm with h1 | h1
              · exact hmem h1
              · exact hx2 h1
            have h1 : firstLineSplit (s.drop (linelen - 1)) = (x2 ++ ['\n'], y2) := by
              rw [hxy2]
              exact firstLineSplit_shape x2 y2 hx2
            have h2 : firstLineSplit s = ((s.take (linelen - 1) ++ x2) ++ ['\n'], y2) := by
              have hglobal : s = (s.take (linelen - 1) ++ x2) ++ '\n' :: y2 := by
                conv_lhs => rw [← List.take_append_drop (linelen - 1) s]
                rw [hxy2, List.append_assoc]
              conv_lhs => rw [hglobal]
              exact firstLineSplit_shape _ y2 hxglob
            rw [h1, h2]
          · rw [if_neg hsm, if_neg (fun hm => hsm (hmemiff.mpr hm))]

/-! ### The scan loop -/

theorem scanLoopF_congr {linelen : Nat} (hs : 2 ≤ linelen) (line : List Char) :
    ∀ f₁ f₂ f, f.bytes.length < f₁ → f.bytes.length < f₂ →
      scanLoopF linelen line f₁ f = scanLoopF linelen line f₂ f := by
  intro f₁
  induction f₁ with
  | zero => intro f₂ f h₁; omega
  | succ n ih =>
    intro f₂ f h₁ h₂
    cases f₂ with
    | zero => omega
    | succ m =>
      rw [scanLoopF, scanLoopF]
      by_cases he : f.eof
      · rw [if_pos he, if_pos he]
      · rw [if_neg he, if_neg he]
        rcases hg : fgets linelen f with ⟨res, f1⟩
        cases res with
        | none => rfl
        | some chunk =>
          dsimp only
          have hlt : f1.bytes.length < f.bytes.length := fgets_some_lt hs hg
          by_cases hsf : strchrFound chunk '\n' = true
          · rw [if_pos hsf, if_pos hsf]
            by_cases hcmp : strncmpIsZero linelen (line ++ [charNul]) (chunk ++ [charNul]) = true
            · rw [if_pos hcmp, if_pos hcmp]
            · rw [if_neg hcmp, if_neg hcmp]
              exact ih m f1 (by omega) (by omega)
          · rw [if_neg hsf, if_neg hsf]
            have hsk := skipLong_le linelen f1
            exact ih m (skipLong linelen f1) (by omega) (by omega)

theorem scanLoop_unfold {linelen : Nat} (hs : 2 ≤ linelen) (line : List Char) (f : CFile) :
    scanLoop linelen line f =
      if f.eof then false
      else
        match fgets linelen f with
        | (none, _) => false
        | (some chunk, f1) =>
          if strchrFound chunk '\n' then
            if strncmpIsZero linelen (line ++ [charNul]) (chunk ++ [charNul]) then true
            else scanLoop linelen line f1
          else scanLoop linelen line (skipLong linelen f1) := by
  show scanLoopF linelen line (f.bytes.length + 1) f = _
  rw [scanLoopF]
  by_cases he : f.eof
  · rw [if_pos he, if_pos he]
  · rw [if_neg he, if_neg he]
    rcases hg : fgets linelen f with ⟨res, f1⟩
    cases res with
    | none => rfl
    | some chunk =>
      dsimp only
      have hlt : f1.bytes.length < f.bytes.length := fgets_some_lt hs hg
      by_cases hsf : strchrFound chunk '\n' = true
      · rw [if_pos hsf, if_pos hsf]
        by_cases hcmp : strncmpIsZero linelen (line ++ [charNul]) (chunk ++ [charNul]) = true
        · rw [if_pos hcmp, if_pos hcmp]
        · rw [if_neg hcmp, if_neg hcmp]
          exact scanLoopF_congr hs line f.bytes.length (f1.bytes.length + 1) f1
            (by omega) (by omega)
      · rw [if_neg hsf, if_neg hsf]
        have hsk := skipLong_le linelen f1
        exact scanLoopF_congr hs line f.bytes.length ((skipLong linelen f1).bytes.length + 1)
          (skipLong linelen f1) (by omega) (by omega)

theorem scanLoop_found_iff (t0 : List Char) (hnul : charNul ∉ t0) :
    ∀ N (s : List Char), s.length < N → charNul ∉ s →
      (scanLoop (t0.length + 2) (t0 ++ ['\n']) (CFile.mk s false) = true ↔
        (t0 ++ ['\n']) ∈ linesOf s) := by
  have hnult : charNul ∉ t0 ++ ['\n'] := by
    intro hm
    rcases List.mem_append.mp hm with h1 | h1
    · exact hnul h1
    · exact absurd (by simpa using h1) (by decide : ¬charNul = '\n')
  intro N
  induction N with
  | zero => intro s h; omega
  | succ n ih =>
    intro s hlen hnuls
    have hs2 : 2 ≤ t0.length + 2 := by omega
    rw [scanLoop_unfold hs2]
    rw [if_neg (by simp)]
    by_cases hne : s = []
    · subst hne
      rw [show fgets (t0.length + 2) (CFile.mk [] false) = (none, CFile.mk [] true) from rfl]
      show false = true ↔ t0 ++ ['\n'] ∈ linesOf []
      rw [show linesOf ([] : List Char) = [] from rfl]
      simp
    · rw [fgets_eq hne]
      by_cases hmem : '\n' ∈ s.take (t0.length + 1)
      · -- the first line fits inside the read buffer
        have hsmem : '\n' ∈ s := List.mem_of_mem_take hmem
        obtain ⟨x, y, hxy, hx⟩ := firstLineSplit_mem hsmem
        have hxlt : x.length < t0.length + 1 := by
          by_contra hcon
          have htk : s.take (t0.length + 1) = x.take (t0.length + 1) := by
            rw [hxy, List.take_append_of_le_length (by omega)]
          rw [htk] at hmem
          exact hx (List.mem_of_mem_take hmem)
        have hrl : readLine (t0.length + 2 - 1) s = (x ++ ['\n'], y, StopReason.newline) := by
          rw [show t0.length + 2 - 1 = t0.length + 1 from rfl, hxy]
          exact readLine_newline x y hx hxlt
        rw [hrl]
        dsimp only
        rw [show (StopReason.newline == StopReason.eof) = false from rfl]
        have hnulx : charNul ∉ x := fun hm =>
          hnuls (by rw [hxy]; exact List.mem_append_left _ hm)
        have hnulxn : charNul ∉ x ++ ['\n'] := by
          intro hm
          rcases List.mem_append.mp hm with h1 | h1
          · exact hnulx h1
          · exact absurd (by simpa using h1) (by decide : ¬charNul = '\n')
        rw [if_pos (by
          rw [strchrFound_iff hnulxn]
          exact List.mem_append_right _ (by simp))]
        have hcmp := strncmpIsZero_iff (n := t0.length + 2) (a := t0 ++ ['\n'])
          (b := x ++ ['\n']) hnult hnulxn
          (by simp only [List.length_append, List.length_singleton]; omega)
        have hsplit : firstLineSplit s = (x ++ ['\n'], y) := by
          rw [hxy]
          exact firstLineSplit_shape x y hx
        have hlines : linesOf s = (x ++ ['\n']) :: linesOf y := by
          rw [linesOf_cons hne, hsplit]
        by_cases heq : t0 ++ ['\n'] = x ++ ['\n']
        · rw [if_pos (hcmp.mpr heq)]
          rw [hlines]
          simp [← heq]
        · rw [if_neg (fun hc => heq (hcmp.mp hc))]
          have hylen : y.length < s.length := by
            have := congrArg List.length hxy
            simp only [List.length_append, List.length_cons] at this
            omega
          have hnuly : charNul ∉ y := fun hm =>
            hnuls (by rw [hxy]; exact List.mem_append_right _ (List.mem_cons_of_mem _ hm))
          rw [ih y (by omega) hnuly]
          rw [hlines]
          simp [List.mem_cons, heq]
      · by_cases hslen : s.length < t0.length + 1
        · -- everything left is a final newline-free fragment
          have hnos : '\n' ∉ s := fun hm =>
            hmem (by rw [List.take_of_length_le (by omega)]; exact hm)
          have hrl : readLine (t0.length + 2 - 1) s = (s, [], StopReason.eof) :=
            readLine_eof s hnos (by omega)
          rw [hrl]
          dsimp only
          rw [show (StopReason.eof == StopReason.eof) = true from rfl]
          rw [if_neg (by rw [strchrFound_iff hnuls]; exact hnos)]
          rw [show skipLong (t0.length + 2) (CFile.mk [] true) = CFile.mk [] true from rfl]
          rw [show scanLoop (t0.length + 2) (t0 ++ ['\n']) (CFile.mk [] true) = false from rfl]
          have hlines : linesOf s = [s] := by
            rw [linesOf_cons hne, firstLineSplit_no_newline s hnos]
            rfl
          rw [hlines]
          constructor
          · intro hf
            exact absurd hf (by decide)
          · intro hm
            rw [List.mem_singleton] at hm
            exact absurd (show '\n' ∈ s by rw [← hm]; simp) hnos
        · -- an overlong first line: the read is truncated and the rest discarded
          have hmle : t0.length + 1 ≤ s.length := by omega
          have hrl : readLine (t0.length + 2 - 1) s =
              (s.take (t0.length + 1), s.drop (t0.length + 1), StopReason.limit) :=
            readLine_limit (t0.length + 1) s hmem hmle
          rw [hrl]
          dsimp only
          rw [show (StopReason.limit == StopReason.eof) = false from rfl]
          have hnultk : charNul ∉ s.take (t0.length + 1) := fun hm =>
            hnuls (List.mem_of_mem_take hm)
          rw [if_neg (by rw [strchrFound_iff hnultk]; exact hmem)]
          have hnuld : charNul ∉ s.drop (t0.length + 1) := fun hm =>
            hnuls (List.mem_of_mem_drop hm)
          have hdlt : (s.drop (t0.length + 1)).length < s.length := by
            rw [List.length_drop]
            omega
          rw [skipLong_spec hs2 ((s.drop (t0.length + 1)).length + 1) (s.drop (t0.length + 1))
            (by omega) hnuld]
          by_cases hdm : '\n' ∈ s.drop (t0.length + 1)
          · rw [if_pos hdm]
            obtain ⟨x2, y2, hxy2, hx2⟩ := firstLineSplit_mem hdm
            have hsplitd : firstLineSplit (s.drop (t0.length + 1)) = (x2 ++ ['\n'], y2) := by
              rw [hxy2]
              exact firstLineSplit_shape x2 y2 hx2
            rw [hsplitd]
            dsimp only
            have hy2len : y2.length < s.length := by
              have := congrArg List.length hxy2
              rw [List.length_drop] at this
              simp only [List.length_append, List.length_cons] at this
              omega
            have hnuly2 : charNul ∉ y2 := fun hm =>
              hnuld (by rw [hxy2]; exact List.mem_append_right _ (List.mem_cons_of_mem _ hm))
            rw [ih y2 (by omega) hnuly2]
            have hxglob : '\n' ∉ s.take (t0.length + 1) ++ x2 := by
              intro hm
              rcases List.mem_append.mp hm with h1 | h1
              · exact hmem h1
              · exact hx2 h1
            have hsplits : firstLineSplit s =
                ((s.take (t0.length + 1) ++ x2) ++ ['\n'], y2) := by
              have hglobal : s = (s.take (t0.length + 1) ++ x2) ++ '\n' :: y2 := by
                conv_lhs => rw [← List.take_append_drop (t0.length + 1) s]
                rw [hxy2, List.append_assoc]
              conv_lhs => rw [hglobal]
              exact firstLineSplit_shape _ y2 hxglob
            have hlines : linesOf s =
                ((s.take (t0.length + 1) ++ x2) ++ ['\n']) :: linesOf y2 := by
              rw [linesOf_cons hne, hsplits]
            rw [hlines]
            have hLne : t0 ++ ['\n'] ≠ (s.take (t0.length + 1) ++ x2) ++ ['\n'] := by
              intro hEq
              have := congrArg List.length hEq
              simp only [List.length_append, List.length_singleton, List.length_take] at this
              omega
            constructor
            · intro hm
              exact List.mem_cons_of_mem _ hm
            · intro hm
              rcases List.mem_cons.mp hm with hEq | hm2
              · exact absurd hEq hLne
              · exact hm2
          · rw [if_neg hdm]
            rw [show scanLoop (t0.length + 2) (t0 ++ ['\n']) (CFile.mk [] true) = false from rfl]
            have hnos : '\n' ∉ s := by
              intro hm
              have hm2 : '\n' ∈ s.take (t0.length + 1) ++ s.drop (t0.length + 1) := by
                rw [List.take_append_drop]
                exact hm
              rcases List.mem_append.mp hm2 with h1 | h1
              · exact hmem h1
              · exact hdm h1
            have hlines : linesOf s = [s] := by
              rw [linesOf_cons hne, firstLineSplit_no_newline s hnos]
              rfl
            rw [hlines]
            constructor
            · intro hf
              exact absurd hf (by decide)
            · intro hm
              rw [List.mem_singleton] at hm
              exact absurd (show '\n' ∈ s by rw [← hm]; simp) hnos

/-! ### Case analysis of a whole run -/

theorem main_cases (w : World) :
    main w = MainOutcome.usageExit ∨
    (∃ m, main w = MainOutcome.errExit m) ∨
    (∃ a0 path a2 rest configBytes base_path relative_path statbase owner_name,
      w.argv = a0 :: path :: a2 :: rest ∧
      w.configOpen = some configBytes ∧
      split_target path = SplitRes.ok base_path relative_path ∧
      w.fs base_path = some statbase ∧
      w.pw_name statbase.st_uid = some owner_name ∧
      a2.head? = some '-' ∧
      w.creds.ruid = statbase.st_uid ∧
      scanLoop (owner_name.length + base_path.length + 3)
        (owner_name ++ ':' :: base_path ++ ['\n']) (CFile.mk configBytes false) = true ∧
      ((strncmpIsZero 17 (installFlag ++ [charNul]) (a2 ++ [charNul]) = true ∧
        main w = MainOutcome.installDevices (base_path ++ '/' :: relative_path)) ∨
       (strncmpIsZero 17 (installFlag ++ [charNul]) (a2 ++ [charNul]) = false ∧
        strncmpIsZero 19 (uninstallFlag ++ [charNul]) (a2 ++ [charNul]) = true ∧
        main w = MainOutcome.uninstallDevices (base_path ++ '/' :: relative_path)))) ∨
    (∃ a0 path a2 rest c2,
      w.argv = a0 :: path :: a2 :: rest ∧
      a2.head? ≠ some '-' ∧
      w.creds.euid = 0 ∧
      w.creds.ruid ≠ 0 ∧
      dropPrivileges w.creds w.creds.ruid = some c2 ∧
      main w = MainOutcome.exec a2 (a2 :: rest) w.environ [] c2) := by
  rw [main]
  by_cases h1 : portable_clearenv w.environ = false
  · rw [if_pos h1]
    exact Or.inr (Or.inl ⟨_, rfl⟩)
  rw [if_neg h1]
  by_cases h2 : w.creds.euid ≠ 0
  · rw [if_pos h2]
    exact Or.inr (Or.inl ⟨_, rfl⟩)
  rw [if_neg h2]
  by_cases h3 : w.creds.rgid = 0 ∨ w.creds.egid = 0
  · rw [if_pos h3]
    exact Or.inr (Or.inl ⟨_, rfl⟩)
  rw [if_neg h3]
  by_cases h4 : w.creds.ruid = 0
  · rw [if_pos h4]
    exact Or.inr (Or.inl ⟨_, rfl⟩)
  rw [if_neg h4]
  cases hco : w.configOpen with
  | none => exact Or.inr (Or.inl ⟨_, rfl⟩)
  | some configBytes =>
  dsimp only
  cases hcc : check_config_file w.fs w.cfg w.fstatConfig with
  | none => exact Or.inr (Or.inl ⟨_, rfl⟩)
  | some warns =>
  dsimp only
  cases hargv : w.argv with
  | nil => exact Or.inl rfl
  | cons a0 t1 =>
  cases t1 with
  | nil => exact Or.inl rfl
  | cons path t2 =>
  cases t2 with
  | nil => exact Or.inl rfl
  | cons a2 rest =>
  dsimp only
  by_cases h5 : whitelist_char_check path true = false
  · rw [if_pos h5]
    exact Or.inr (Or.inl ⟨_, rfl⟩)
  rw [if_neg h5]
  cases hfs1 : w.fs path with
  | none => exact Or.inl rfl
  | some dirstat =>
  dsimp only
  by_cases h6 : S_ISDIR dirstat.st_mode = false
  · rw [if_pos h6]
    exact Or.inl rfl
  rw [if_neg h6]
  by_cases h7 : dirstat.st_mode &&& 0o022 ≠ 0
  · rw [if_pos h7]
    exact Or.inr (Or.inl ⟨_, rfl⟩)
  rw [if_neg h7]
  cases hsp : split_target path with
  | usage => exact Or.inl rfl
  | dot => exact Or.inr (Or.inl ⟨_, rfl⟩)
  | ok base_path relative_path =>
  dsimp only
  by_cases h8 : whitelist_char_check base_path true = false
  · rw [if_pos h8]
    exact Or.inr (Or.inl ⟨_, rfl⟩)
  rw [if_neg h8]
  by_cases h9 : whitelist_char_check relative_path false = false
  · rw [if_pos h9]
    exact Or.inr (Or.inl ⟨_, rfl⟩)
  rw [if_neg h9]
  cases hfs2 : w.fs base_path with
  | none => exact Or.inl rfl
  | some statbase =>
  dsimp only
  by_cases h10 : S_ISDIR statbase.st_mode = false
  · rw [if_pos h10]
    exact Or.inl rfl
  rw [if_neg h10]
  by_cases h11 : statbase.st_mode &&& 0o022 ≠ 0
  · rw [if_pos h11]
    exact Or.inr (Or.inl ⟨_, rfl⟩)
  rw [if_neg h11]
  by_cases h12 : statbase.st_uid ≠ dirstat.st_uid
  · rw [if_pos h12]
    exact Or.inr (Or.inl ⟨_, rfl⟩)
  rw [if_neg h12]
  cases hpw : w.pw_name statbase.st_uid with
  | none => exact Or.inr (Or.inl ⟨_, rfl⟩)
  | some owner_name =>
  dsimp only
  by_cases h13 : check_base_path w.fs base_path = false
  · rw [if_pos h13]
    exact Or.inr (Or.inl ⟨_, rfl⟩)
  rw [if_neg h13]
  by_cases h14 : w.fcloseOk = false
  · rw [if_pos h14]
    exact Or.inr (Or.inl ⟨_, rfl⟩)
  rw [if_neg h14]
  by_cases h15 : scanLoop (owner_name.length + base_path.length + 3)
      (owner_name ++ ':' :: base_path ++ ['\n']) (CFile.mk configBytes false) = false
  · rw [if_pos h15]
    exact Or.inr (Or.inl ⟨_, rfl⟩)
  rw [if_neg h15]
  have hfound : scanLoop (owner_name.length + base_path.length + 3)
      (owner_name ++ ':' :: base_path ++ ['\n']) (CFile.mk configBytes false) = true := by
    rcases hsc : scanLoop (owner_name.length + base_path.length + 3)
        (owner_name ++ ':' :: base_path ++ ['\n']) (CFile.mk configBytes false) with _ | _
    · exact absurd hsc h15
    · rfl
  split
  next xs tl =>
    by_cases h16 : w.creds.ruid ≠ statbase.st_uid
    · rw [if_pos h16]
      exact Or.inr (Or.inl ⟨_, rfl⟩)
    rw [if_neg h16]
    have h16e : w.creds.ruid = statbase.st_uid := not_not.mp h16
    by_cases h17 : strncmpIsZero 17 (installFlag ++ [charNul]) (('-' :: tl) ++ [charNul]) = true
    · rw [if_pos h17]
      exact Or.inr (Or.inr (Or.inl ⟨a0, path, '-' :: tl, rest, configBytes, base_path,
        relative_path, statbase, owner_name, rfl, rfl, hsp, hfs2, hpw, rfl, h16e, hfound,
        Or.inl ⟨h17, rfl⟩⟩))
    rw [if_neg h17]
    by_cases h18 : strncmpIsZero 19 (uninstallFlag ++ [charNul]) (('-' :: tl) ++ [charNul]) = true
    · rw [if_pos h18]
      exact Or.inr (Or.inr (Or.inl ⟨a0, path, '-' :: tl, rest, configBytes, base_path,
        relative_path, statbase, owner_name, rfl, rfl, hsp, hfs2, hpw, rfl, h16e, hfound,
        Or.inr ⟨Bool.eq_false_iff.mpr h17, h18, rfl⟩⟩))
    rw [if_neg h18]
    exact Or.inl rfl
  next hne =>
    by_cases h16 : w.chdirFinalOk = false
    · rw [if_pos h16]
      exact Or.inr (Or.inl ⟨_, rfl⟩)
    rw [if_neg h16]
    by_cases h17 : w.chrootOk = false
    · rw [if_pos h17]
      exact Or.inr (Or.inl ⟨_, rfl⟩)
    rw [if_neg h17]
    cases hdp : dropPrivileges w.creds w.creds.ruid with
    | none => exact Or.inr (Or.inl ⟨_, rfl⟩)
    | some c2 =>
    dsimp only
    by_cases h18 : w.chdirRootOk = false
    · rw [if_pos h18]
      exact Or.inr (Or.inl ⟨_, rfl⟩)
    rw [if_neg h18]
    by_cases h19 : whitelist_char_check a2 true = false
    · rw [if_pos h19]
      exact Or.inr (Or.inl ⟨_, rfl⟩)
    rw [if_neg h19]
    have hhead : a2.head? ≠ some '-' := by
      cases a2 with
      | nil => simp
      | cons c tl =>
        simp only [List.head?]
        intro hc
        injection hc with hc
        exact hne tl (by rw [hc])
    exact Or.inr (Or.inr (Or.inr ⟨a0, path, a2, rest, c2, rfl, hhead,
      not_not.mp h2, h4, rfl, rfl⟩))

/-! ### Claim C1 -/

/-- C1: the claim says that a `(device, inode)` disagreement between the
path-based `lstat` of the config path and the `fstat` of the opened
descriptor terminates the process before any configuration line is read.
On the code this is false: the branch (userchroot.c lines 165-168) prints
"Config file moved after opening. Aborting." but does not exit, so the run
proceeds through the whole pipeline; at this concrete input it reaches the
`execve` hand-off. -/
theorem config_moved_mismatch_not_fatal :
    swappedConfigWorld.fs swappedConfigWorld.cfg = some (Stat.mk 1 11 0o100644 0) ∧
    swappedConfigWorld.fstatConfig = some (Stat.mk 1 12 0o100644 0) ∧
    (12 : Nat) ≠ 11 ∧
    check_config_file swappedConfigWorld.fs swappedConfigWorld.cfg
      swappedConfigWorld.fstatConfig = some [Msg.configMoved] ∧
    main swappedConfigWorld =
      MainOutcome.exec "/bin/sh".data ["/bin/sh".data] ["PATH=/usr/bin".data] []
        (Creds.mk 1001 1001 1001 100 100 100) := by
  exact ⟨by decide, by decide, by decide, by decide, by decide⟩

/-! ### Claim C2 -/

/-- C2: on every Exec-mode run that reaches the `execve` hand-off, the four
regain attempts `setuid(0)`, `seteuid(0)`, `setgid(0)`, `setegid(0)` fail on
the credentials in force at the hand-off, and the re-read identities satisfy
`getuid = geteuid = invoking real uid`, `getgid ≠ 0`, `getegid ≠ 0`.  (The
converse direction - a successful regain or a zero identity is fatal before
exec - is the structure of `dropPrivileges`, whose `none` result the model
maps to the fatal exit.) -/
theorem exec_regain_checks_hold {w : World} {prog : List Char}
    {args env visibleEnv : List (List Char)} {c : Creds}
    (h : main w = MainOutcome.exec prog args env visibleEnv c) :
    c.ruid = w.creds.ruid ∧ c.euid = w.creds.ruid ∧ c.rgid ≠ 0 ∧ c.egid ≠ 0 ∧
    (sys_setuid c 0).1 = false ∧ (sys_seteuid c 0).1 = false ∧
    (sys_setgid c 0).1 = false ∧ (sys_setegid c 0).1 = false := by
  rcases main_cases w with hc | ⟨m, hc⟩ |
    ⟨a0, path, a2, rest, configBytes, base_path, relative_path, statbase, owner_name,
      hargv, hco, hsp, hfs, hpw, hhead, hruid, hscan, hflag⟩ |
    ⟨a0, path, a2, rest, c2, hargv, hhead, heu, hru, hdp, hout⟩
  · rw [h] at hc
    cases hc
  · rw [h] at hc
    cases hc
  · rcases hflag with ⟨_, hout⟩ | ⟨_, _, hout⟩
    · rw [h] at hout
      cases hout
    · rw [h] at hout
      cases hout
  · rw [h] at hout
    injection hout with hp ha he hv hc2
    subst hc2
    obtain ⟨hr1, he1, _, _, _, hz3, hz4, ha1, ha2, ha3, ha4⟩ :=
      dropPrivileges_spec heu hru hdp
    exact ⟨hr1, he1, hz3, hz4, ha1, ha2, ha3, ha4⟩

/-- Witness for C2 at the happy-path world. -/
theorem exec_regain_checks_hold_witness :
    (Creds.mk 1001 1001 1001 100 100 100).ruid = happyWorld.creds.ruid ∧
    (Creds.mk 1001 1001 1001 100 100 100).euid = happyWorld.creds.ruid ∧
    (Creds.mk 1001 1001 1001 100 100 100).rgid ≠ 0 ∧
    (Creds.mk 1001 1001 1001 100 100 100).egid ≠ 0 ∧
    (sys_setuid (Creds.mk 1001 1001 1001 100 100 100) 0).1 = false ∧
    (sys_seteuid (Creds.mk 1001 1001 1001 100 100 100) 0).1 = false ∧
    (sys_setgid (Creds.mk 1001 1001 1001 100 100 100) 0).1 = false ∧
    (sys_setegid (Creds.mk 1001 1001 1001 100 100 100) 0).1 = false :=
  @exec_regain_checks_hold happyWorld "/bin/sh".data ["/bin/sh".data]
    ["PATH=/usr/bin".data] [] (Creds.mk 1001 1001 1001 100 100 100) (by decide)

/-! ### Claim C3 -/

/-- C3 counterexample: for the absolute path "/a/b" the ancestor walk stats
exactly "/a" twice and never the root "/"; with a filesystem whose root
fails every asserted condition (not root-owned, group/other-writable) the
walk still passes, so the claim "every directory on the chain from the
single-slash root, including the root itself, is checked fatally" is false
on the code. -/
theorem ancestor_walk_skips_root :
    basePathChain "/a/b".data = some ["/a".data, "/a".data] ∧
    ("/".data : List Char) ∉ ["/a".data, "/a".data] ∧
    dirOk badRootFs "/".data = false ∧
    check_base_path badRootFs "/a/b".data = true := by
  exact ⟨by decide, by decide, by decide, by decide⟩

/-- C3 amended: for every absolute path the walk succeeds and stats exactly
the iterated longest-proper-prefix truncations at slash boundaries - each
statted entry is a nonempty prefix of the path cut at a slash (or the path
itself when its only slash is the leading one), the first statted entry is
the parent truncation, and the root "/" is statted only for paths beginning
"//" or the path "/" itself; the walk is fatal unless every statted entry
passes the directory/owner/mode test. -/
theorem ancestor_walk_statted_entries (p : List Char) (hhead : p.head? = some '/') :
    ∃ l, basePathChain p = some l ∧ l ≠ [] ∧
      (∀ fs, check_base_path fs p = l.all (dirOk fs)) ∧
      (∀ q ∈ l, q ≠ [] ∧ q = p.take q.length ∧ q.head? = some '/' ∧
        (q.length = p.length ∨ p.get? q.length = some '/')) ∧
      (∀ i, lastSlashIdx p = some (i + 1) → l.head? = some (p.take (i + 1))) ∧
      (lastSlashIdx p = some 0 → l = [p]) ∧
      ((['/'] : List Char) ∈ l → p.take 2 = ['/', '/'] ∨ p = ['/']) :=
  basePathChain_spec p hhead

/-- Witness for the amended C3 at the concrete path "/a/b". -/
theorem ancestor_walk_statted_entries_witness :
    ("/a/b".data.head? = some '/') ∧
    (∃ l, basePathChain "/a/b".data = some l ∧ l ≠ [] ∧
      (∀ fs, check_base_path fs "/a/b".data = l.all (dirOk fs)) ∧
      (∀ q ∈ l, q ≠ [] ∧ q = "/a/b".data.take q.length ∧ q.head? = some '/' ∧
        (q.length = "/a/b".data.length ∨ "/a/b".data.get? q.length = some '/')) ∧
      (∀ i, lastSlashIdx "/a/b".data = some (i + 1) → l.head? = some ("/a/b".data.take (i + 1))) ∧
      (lastSlashIdx "/a/b".data = some 0 → l = ["/a/b".data]) ∧
      ((['/'] : List Char) ∈ l → "/a/b".data.take 2 = ['/', '/'] ∨ "/a/b".data = ['/'])) :=
  ⟨by decide, ancestor_walk_statted_entries "/a/b".data (by decide)⟩

/-! ### Claim C4 -/

/-- C4 counterexample: with the config path naming a FIFO (not a regular
file) that passes the owner and permission checks, the run does NOT
terminate at the regular-file check: it proceeds through the authorization
scan all the way to the `execve` hand-off.  The branch (lines 146-148) only
prints a diagnostic. -/
theorem config_not_regular_reaches_scan :
    fifoConfigWorld.fs fifoConfigWorld.cfg = some (Stat.mk 1 11 0o010600 0) ∧
    S_ISREG 0o010600 = false ∧
    check_config_file fifoConfigWorld.fs fifoConfigWorld.cfg fifoConfigWorld.fstatConfig =
      some [Msg.configNotRegular] ∧
    main fifoConfigWorld =
      MainOutcome.exec "/bin/sh".data ["/bin/sh".data] ["PATH=/usr/bin".data] []
        (Creds.mk 1001 1001 1001 100 100 100) := by
  exact ⟨by decide, by decide, by decide, by decide⟩

/-- C4 amended: the regular-file test never causes the fatal exit -
`check_config_file` exits exactly for a failed ancestor walk, a failed
`lstat`, a non-root owner, permissive mode bits, or a failed `fstat` - and
when the file is not regular the function merely records its diagnostic and
returns. -/
theorem config_not_regular_never_fatal (fs : Fs) (cfg : List Char)
    (fstatRes : Option Stat) :
    (check_config_file fs cfg fstatRes = none ↔
      (check_base_path fs cfg = false ∨ fs cfg = none ∨
       (∃ st, fs cfg = some st ∧ (st.st_uid ≠ 0 ∨ st.st_mode &&& 0o022 ≠ 0)) ∨
       ((∃ st, fs cfg = some st ∧ st.st_uid = 0 ∧ st.st_mode &&& 0o022 = 0) ∧
        fstatRes = none))) ∧
    (∀ st msgs, fs cfg = some st → S_ISREG st.st_mode = false →
      check_config_file fs cfg fstatRes = some msgs → Msg.configNotRegular ∈ msgs) := by
  constructor
  · rw [check_config_file]
    by_cases hb : check_base_path fs cfg = false
    · rw [if_pos hb]
      simp [hb]
    rw [if_neg hb]
    cases hc : fs cfg with
    | none => simp
    | some st =>
      dsimp only
      by_cases hu : st.st_uid ≠ 0
      · rw [if_pos hu]
        constructor
        · intro _
          exact Or.inr (Or.inr (Or.inl ⟨st, rfl, Or.inl hu⟩))
        · intro _
          rfl
      rw [if_neg hu]
      have hu2 := not_not.mp hu
      by_cases hm : st.st_mode &&& 0o022 ≠ 0
      · rw [if_pos hm]
        constructor
        · intro _
          exact Or.inr (Or.inr (Or.inl ⟨st, rfl, Or.inr hm⟩))
        · intro _
          rfl
      rw [if_neg hm]
      have hm2 := not_not.mp hm
      cases hf : fstatRes with
      | none =>
        constructor
        · intro _
          exact Or.inr (Or.inr (Or.inr ⟨⟨st, rfl, hu2, hm2⟩, rfl⟩))
        · intro _
          rfl
      | some fstv =>
        dsimp only
        by_cases hmm : fstv.st_dev ≠ st.st_dev ∨ fstv.st_ino ≠ st.st_ino
        · rw [if_pos hmm]
          simp [hb, hu2, hm2]
        · rw [if_neg hmm]
          simp [hb, hu2, hm2]
  · intro st msgs hcfg hreg hres
    rw [check_config_file] at hres
    by_cases hb : check_base_path fs cfg = false
    · rw [if_pos hb] at hres
      cases hres
    rw [if_neg hb] at hres
    rw [hcfg] at hres
    dsimp only at hres
    rw [hreg] at hres
    rw [if_neg (show ¬(false = true) by simp)] at hres
    by_cases hu : st.st_uid ≠ 0
    · rw [if_pos hu] at hres
      cases hres
    rw [if_neg hu] at hres
    by_cases hm : st.st_mode &&& 0o022 ≠ 0
    · rw [if_pos hm] at hres
      cases hres
    rw [if_neg hm] at hres
    cases hf : fstatRes with
    | none =>
      rw [hf] at hres
      cases hres
    | some fstv =>
      rw [hf] at hres
      dsimp only at hres
      by_cases hmm : fstv.st_dev ≠ st.st_dev ∨ fstv.st_ino ≠ st.st_ino
      · rw [if_pos hmm] at hres
        obtain rfl := Option.some.inj hres
        simp
      · rw [if_neg hmm] at hres
        obtain rfl := Option.some.inj hres
        simp

/-- Witness for the amended C4: a FIFO config file that passes every other
check produces a non-fatal result carrying the diagnostic. -/
theorem config_not_regular_never_fatal_witness :
    (fifoConfigWorld.fs fifoConfigWorld.cfg = some (Stat.mk 1 11 0o010600 0) ∧
     S_ISREG (0o010600 : Nat) = false ∧
     check_config_file fifoConfigWorld.fs fifoConfigWorld.cfg fifoConfigWorld.fstatConfig =
       some [Msg.configNotRegular]) ∧
    Msg.configNotRegular ∈ [Msg.configNotRegular] :=
  ⟨⟨by decide, by decide, by decide⟩,
    (config_not_regular_never_fatal fifoConfigWorld.fs fifoConfigWorld.cfg
      fifoConfigWorld.fstatConfig).2 (Stat.mk 1 11 0o010600 0) [Msg.configNotRegular]
      (by decide) (by decide) (by decide)⟩

/-! ### Claim C5 -/

/-- C5 counterexample: the claim's "if and only if" fails on a config file
containing a NUL byte.  In the stream "a NUL newline alice:/srv/jails
newline", the second line is exactly the sought byte sequence
"alice:/srv/jails" plus the newline (17 bytes; the buffer size 18 equals
that length plus one), yet the scan reports no match: `strchr` stops at the
NUL of the first chunk, so the short first line is treated as overlong and
the matching line is consumed as its continuation fragment. -/
theorem scan_misses_line_after_nul :
    scanLoop 18 "alice:/srv/jails\n".data (CFile.mk nulConfigBytes false) = false ∧
    "alice:/srv/jails\n".data ∈ linesOf nulConfigBytes ∧
    (18 : Nat) = "alice:/srv/jails\n".data.length + 1 := by
  exact ⟨by decide, by decide, by decide⟩

/-- C5 amended: provided the configuration stream contains no NUL byte (and
the owner name and base path are NUL-free, which the character whitelist
and the user database guarantee in practice), the scan sets the match flag
if and only if some config line is the exact byte sequence
`owner_name ++ ":" ++ base_path` followed by a newline.  In particular a
line of exactly the target length matches, a longer line is discarded with
its continuation fragments, and a NUL-free stream can never produce a false
match or a false miss. -/
theorem scan_found_iff_exact_line (owner_name base_path configBytes : List Char)
    (hnul1 : charNul ∉ owner_name) (hnul2 : charNul ∉ base_path)
    (hnulc : charNul ∉ configBytes) :
    (scanLoop (owner_name.length + base_path.length + 3)
        (owner_name ++ ':' :: base_path ++ ['\n']) (CFile.mk configBytes false) = true ↔
      (owner_name ++ ':' :: base_path ++ ['\n']) ∈ linesOf configBytes) := by
  have hnt0 : charNul ∉ owner_name ++ ':' :: base_path := by
    intro hm
    rcases List.mem_append.mp hm with h1 | h1
    · exact hnul1 h1
    · rcases List.mem_cons.mp h1 with h2 | h2
      · exact absurd h2 (by decide)
      · exact hnul2 h2
  have h := scanLoop_found_iff (owner_name ++ ':' :: base_path) hnt0
    (configBytes.length + 1) configBytes (Nat.lt_succ_self _) hnulc
  have ht0 : (owner_name ++ ':' :: base_path) ++ ['\n'] =
      owner_name ++ ':' :: base_path ++ ['\n'] := by
    simp [List.append_assoc]
  have hlen : (owner_name ++ ':' :: base_path).length + 2 =
      owner_name.length + base_path.length + 3 := by
    simp only [List.length_append, List.length_cons]
    omega
  rw [ht0, hlen] at h
  exact h

/-- Witness for the amended C5: the happy config stream matches exactly. -/
theorem scan_found_iff_exact_line_witness :
    (charNul ∉ "alice".data ∧ charNul ∉ "/srv/jails".data ∧
     charNul ∉ "alice:/srv/jails\n".data) ∧
    (scanLoop ("alice".data.length + "/srv/jails".data.length + 3)
        ("alice".data ++ ':' :: "/srv/jails".data ++ ['\n'])
        (CFile.mk "alice:/srv/jails\n".data false) = true ↔
      ("alice".data ++ ':' :: "/srv/jails".data ++ ['\n']) ∈
        linesOf "alice:/srv/jails\n".data) :=
  ⟨⟨by decide, by decide, by decide⟩,
    scan_found_iff_exact_line "alice".data "/srv/jails".data "alice:/srv/jails\n".data
      (by decide) (by decide) (by decide)⟩

/-! ### Claim C6 -/

/-- C6: any run that reaches the `execve` hand-off passes to it exactly the
environment block received at the process entry point, even though the
environment visible to the process at that moment is the cleared (empty)
one. -/
theorem exec_env_is_entry_block {w : World} {prog : List Char}
    {args env visibleEnv : List (List Char)} {c : Creds}
    (h : main w = MainOutcome.exec prog args env visibleEnv c) :
    env = w.environ ∧ visibleEnv = [] := by
  rcases main_cases w with hc | ⟨m, hc⟩ |
    ⟨a0, path, a2, rest, configBytes, base_path, relative_path, statbase, owner_name,
      hargv, hco, hsp, hfs, hpw, hhead, hruid, hscan, hflag⟩ |
    ⟨a0, path, a2, rest, c2, hargv, hhead, heu, hru, hdp, hout⟩
  · rw [h] at hc
    cases hc
  · rw [h] at hc
    cases hc
  · rcases hflag with ⟨_, hout⟩ | ⟨_, _, hout⟩
    · rw [h] at hout
      cases hout
    · rw [h] at hout
      cases hout
  · rw [h] at hout
    injection hout with hp ha he hv hc2
    exact ⟨he, hv⟩

/-- Witness for C6 at the happy-path world. -/
theorem exec_env_is_entry_block_witness :
    ["PATH=/usr/bin".data] = happyWorld.environ ∧ ([] : List (List Char)) = [] :=
  @exec_env_is_entry_block happyWorld "/bin/sh".data ["/bin/sh".data]
    ["PATH=/usr/bin".data] [] (Creds.mk 1001 1001 1001 100 100 100) (by decide)

/-! ### Claim C7 -/

/-- C7 counterexample: "--install-devicesfoo" begins with a dash and is not
one of the two recognized flags, yet the invocation does not fail with a
usage error: because the dispatch compares only the first 17 bytes
(`strncmp(..., 17)`), it is treated as `--install-devices` and device
installation runs. -/
theorem flag_with_suffix_runs_install :
    "--install-devicesfoo".data.head? = some '-' ∧
    "--install-devicesfoo".data ≠ installFlag ∧
    "--install-devicesfoo".data ≠ uninstallFlag ∧
    main suffixFlagWorld = MainOutcome.installDevices "/srv/jails/work".data := by
  exact ⟨by decide, by decide, by decide, by decide⟩

/-- C7 amended: a second positional beginning with a dash whose FIRST 17
BYTES differ from "--install-devices" and whose first 19 bytes differ from
"--uninstall-devices" never reaches device installation, device removal or
exec: the run ends in the usage exit or an earlier fatal diagnostic, always
with the fixed error code.  (An argument that merely extends one of the two
flags is treated as that flag.) -/
theorem unknown_dash_flag_never_acts {w : World} {a0 path a2 : List Char}
    {rest : List (List Char)}
    (hargv : w.argv = a0 :: path :: a2 :: rest)
    (hdash : a2.head? = some '-')
    (h17 : strncmpIsZero 17 (installFlag ++ [charNul]) (a2 ++ [charNul]) = false)
    (h19 : strncmpIsZero 19 (uninstallFlag ++ [charNul]) (a2 ++ [charNul]) = false) :
    main w = MainOutcome.usageExit ∨ ∃ m, main w = MainOutcome.errExit m := by
  rcases main_cases w with hc | hc |
    ⟨a0x, pathx, a2x, restx, configBytes, base_path, relative_path, statbase, owner_name,
      hargvx, hco, hsp, hfs, hpw, hhead, hruid, hscan, hflag⟩ |
    ⟨a0x, pathx, a2x, restx, c2, hargvx, hhead, heu, hru, hdp, hout⟩
  · exact Or.inl hc
  · exact Or.inr hc
  · rw [hargv] at hargvx
    injection hargvx with h1 hr1
    injection hr1 with h2 hr2
    injection hr2 with h3 h4
    subst h3
    rcases hflag with ⟨hcmp, _⟩ | ⟨_, hcmp, _⟩
    · rw [h17] at hcmp
      cases hcmp
    · rw [h19] at hcmp
      cases hcmp
  · rw [hargv] at hargvx
    injection hargvx with h1 hr1
    injection hr1 with h2 hr2
    injection hr2 with h3 h4
    subst h3
    exact absurd hdash hhead

/-- Witness for the amended C7: "--frobnicate" leads to the usage exit. -/
theorem unknown_dash_flag_never_acts_witness :
    (unknownFlagWorld.argv =
      "userchroot".data :: "/srv/jails/work".data :: "--frobnicate".data :: [] ∧
     "--frobnicate".data.head? = some '-' ∧
     strncmpIsZero 17 (installFlag ++ [charNul]) ("--frobnicate".data ++ [charNul]) = false ∧
     strncmpIsZero 19 (uninstallFlag ++ [charNul]) ("--frobnicate".data ++ [charNul]) = false) ∧
    (main unknownFlagWorld = MainOutcome.usageExit ∨
      ∃ m, main unknownFlagWorld = MainOutcome.errExit m) :=
  ⟨⟨by decide, by decide, by decide, by decide⟩,
    @unknown_dash_flag_never_acts unknownFlagWorld "userchroot".data
      "/srv/jails/work".data "--frobnicate".data []
      (by decide) (by decide) (by decide) (by decide)⟩

/-! ### Claim C8 -/

/-- C8: for a target path beginning with a slash, the split really happens
at the final slash (the character there is a slash and no later character
is one), and the block accepts with exactly the two halves when none of the
rejection conditions holds, rejecting precisely when the base is empty, the
leaf is empty, or the leaf is [.] or [..]. -/
theorem split_target_final_slash_spec (path : List Char) (i : Nat)
    (hhead : path.head? = some '/') (hlast : lastSlashIdx path = some i) :
    path.get? i = some '/' ∧
    (∀ j, i < j → path.get? j ≠ some '/') ∧
    (split_target path = SplitRes.ok (path.take i) (path.drop (i + 1)) ↔
      ¬(path.take i = [] ∨ path.drop (i + 1) = [] ∨
        path.drop (i + 1) = ['.'] ∨ path.drop (i + 1) = ['.', '.'])) ∧
    ((split_target path = SplitRes.usage ∨ split_target path = SplitRes.dot) ↔
      (path.take i = [] ∨ path.drop (i + 1) = [] ∨
        path.drop (i + 1) = ['.'] ∨ path.drop (i + 1) = ['.', '.'])) := by
  refine ⟨lastSlashIdx_get hlast, lastSlashIdx_max hlast, ?_, ?_⟩ <;>
  · rw [split_target, if_neg (by rw [hhead]; simp), hlast]
    dsimp only
    by_cases h1 : path.take i = []
    · rw [if_pos h1]
      simp [h1]
    rw [if_neg h1]
    by_cases h2 : path.drop (i + 1) = []
    · rw [if_pos h2]
      simp [h1, h2]
    rw [if_neg h2]
    by_cases h3 : path.drop (i + 1) = ['.'] ∨ path.drop (i + 1) = ['.', '.']
    · rw [if_pos h3]
      simp [h1, h2, h3]
    · rw [if_neg h3]
      simp [h1, h2, h3]

/-- Witness for C8 at the concrete path "/srv/jails/work" (last slash at
index 10). -/
theorem split_target_final_slash_spec_witness :
    ("/srv/jails/work".data.head? = some '/' ∧
     lastSlashIdx "/srv/jails/work".data = some 10) ∧
    ("/srv/jails/work".data.get? 10 = some '/' ∧
     (∀ j, 10 < j → "/srv/jails/work".data.get? j ≠ some '/') ∧
     (split_target "/srv/jails/work".data =
        SplitRes.ok ("/srv/jails/work".data.take 10) ("/srv/jails/work".data.drop 11) ↔
       ¬("/srv/jails/work".data.take 10 = [] ∨ "/srv/jails/work".data.drop 11 = [] ∨
         "/srv/jails/work".data.drop 11 = ['.'] ∨
         "/srv/jails/work".data.drop 11 = ['.', '.'])) ∧
     ((split_target "/srv/jails/work".data = SplitRes.usage ∨
       split_target "/srv/jails/work".data = SplitRes.dot) ↔
      ("/srv/jails/work".data.take 10 = [] ∨ "/srv/jails/work".data.drop 11 = [] ∨
       "/srv/jails/work".data.drop 11 = ['.'] ∨
       "/srv/jails/work".data.drop 11 = ['.', '.']))) :=
  ⟨⟨by decide, by decide⟩,
    split_target_final_slash_spec "/srv/jails/work".data 10 (by decide) (by decide)⟩

/-! ### Claim C9 -/

/-- C9: when the second positional begins with a dash and the invoking real
uid differs from the owner of the base directory, the run can only end in
an exit with the fixed error code (the usage exit or a fatal diagnostic,
"install or uninstall devices can only be called by the owner" when the
dispatch is reached): no device node is created or removed and no exec
happens. -/
theorem device_mode_non_owner_exits {w : World} {a0 path a2 : List Char}
    {rest : List (List Char)}
    (hargv : w.argv = a0 :: path :: a2 :: rest)
    (hdash : a2.head? = some '-')
    (howner : ∀ base_path relative_path statbase,
      split_target path = SplitRes.ok base_path relative_path →
      w.fs base_path = some statbase → w.creds.ruid ≠ statbase.st_uid) :
    main w = MainOutcome.usageExit ∨ ∃ m, main w = MainOutcome.errExit m := by
  rcases main_cases w with hc | hc |
    ⟨a0x, pathx, a2x, restx, configBytes, base_path, relative_path, statbase, owner_name,
      hargvx, hco, hsp, hfs, hpw, hhead, hruid, hscan, hflag⟩ |
    ⟨a0x, pathx, a2x, restx, c2, hargvx, hhead, heu, hru, hdp, hout⟩
  · exact Or.inl hc
  · exact Or.inr hc
  · rw [hargv] at hargvx
    injection hargvx with h1 hr1
    injection hr1 with h2 hr2
    injection hr2 with h3 h4
    subst h2
    exact absurd hruid (howner base_path relative_path statbase hsp hfs)
  · rw [hargv] at hargvx
    injection hargvx with h1 hr1
    injection hr1 with h2 hr2
    injection hr2 with h3 h4
    subst h3
    exact absurd hdash hhead

/-- Witness for C9: uid 1002 invoking "--install-devices" on the jail owned
by uid 1001 is rejected. -/
theorem device_mode_non_owner_exits_witness :
    (bobInstallWorld.argv =
      "userchroot".data :: "/srv/jails/work".data :: "--install-devices".data :: [] ∧
     "--install-devices".data.head? = some '-') ∧
    (main bobInstallWorld = MainOutcome.usageExit ∨
      ∃ m, main bobInstallWorld = MainOutcome.errExit m) :=
  ⟨⟨by decide, by decide⟩,
    @device_mode_non_owner_exits bobInstallWorld "userchroot".data
      "/srv/jails/work".data "--install-devices".data []
      (by decide) (by decide)
      (by intro base_path relative_path statbase hsp hfs
          by_cases hb : base_path = "/srv/jails".data
          · subst hb
            rw [show bobInstallWorld.fs "/srv/jails".data =
              some (Stat.mk 1 21 0o040750 1001) from by decide] at hfs
            obtain rfl := Option.some.inj hfs
            decide
          · rw [show split_target "/srv/jails/work".data =
              SplitRes.ok "/srv/jails".data "work".data from by decide] at hsp
            injection hsp with hs1 hs2
            exact absurd hs1.symm hb)⟩

/-! ### Claim C10 -/

/-- C10: the device provisioner (install or uninstall) is reachable only
after the configuration scan has found the exact `owner_name:base_path`
line: any run that ends in `installDevices` or `uninstallDevices` passed
a successful scan of the opened config stream (and the no-match run exits
with the Permission Denied diagnostic before the mode dispatch, which the
model expresses by those runs ending in `errExit`). -/
theorem device_modes_require_config_match {w : World} {p : List Char}
    (h : main w = MainOutcome.installDevices p ∨
         main w = MainOutcome.uninstallDevices p) :
    ∃ a0 path a2 rest configBytes base_path relative_path statbase owner_name,
      w.argv = a0 :: path :: a2 :: rest ∧
      w.configOpen = some configBytes ∧
      split_target path = SplitRes.ok base_path relative_path ∧
      w.fs base_path = some statbase ∧
      w.pw_name statbase.st_uid = some owner_name ∧
      w.creds.ruid = statbase.st_uid ∧
      scanLoop (owner_name.length + base_path.length + 3)
        (owner_name ++ ':' :: base_path ++ ['\n']) (CFile.mk configBytes false) = true := by
  rcases main_cases w with hc | ⟨m, hc⟩ |
    ⟨a0, path, a2, rest, configBytes, base_path, relative_path, statbase, owner_name,
      hargv, hco, hsp, hfs, hpw, hhead, hruid, hscan, hflag⟩ |
    ⟨a0, path, a2, rest, c2, hargv, hhead, heu, hru, hdp, hout⟩
  · rcases h with h | h <;>
    · rw [h] at hc
      cases hc
  · rcases h with h | h <;>
    · rw [h] at hc
      cases hc
  · exact ⟨a0, path, a2, rest, configBytes, base_path, relative_path, statbase,
      owner_name, hargv, hco, hsp, hfs, hpw, hruid, hscan⟩
  · rcases h with h | h <;>
    · rw [h] at hout
      cases hout
  
/-- Witness for C10 at the owner's install invocation. -/
theorem device_modes_require_config_match_witness :
    main installWorld = MainOutcome.installDevices "/srv/jails/work".data ∧
    (∃ a0 path a2 rest configBytes base_path relative_path statbase owner_name,
      installWorld.argv = a0 :: path :: a2 :: rest ∧
      installWorld.configOpen = some configBytes ∧
      split_target path = SplitRes.ok base_path relative_path ∧
      installWorld.fs base_path = some statbase ∧
      installWorld.pw_name statbase.st_uid = some owner_name ∧
      installWorld.creds.ruid = statbase.st_uid ∧
      scanLoop (owner_name.length + base_path.length + 3)
        (owner_name ++ ':' :: base_path ++ ['\n']) (CFile.mk configBytes false) = true) :=
  ⟨by decide, device_modes_require_config_match (w := installWorld)
    (p := "/srv/jails/work".data) (Or.inl (by decide))⟩

end Userchroot
